import Mathlib

/-!
Verification development for the `pympp` five-stage pipelined MIPS-subset
simulator.  The definitions below are a shallow embedding of the Python
sources (`src/pympp/base.py`, `src/pympp/util/type.py`, `src/pympp/mips/isa.py`,
`src/pympp/mips/set.py`, `src/pympp/pipeline.py`, `src/pympp/cpu.py`).

Conventions of the embedding:
* Python `Word` objects are represented by `Nat` values `< 2^32`; the
  constructor `Word(v)` (which masks with `0xFFFFFFFF`) is `wordOf : Int → Nat`.
* Python plain `int` program counters are `Int`; a pc that has become a `Word`
  object (which happens when `jr` assigns `packet.npc = rs_val`) is tracked by
  the sum type `PcV`, because `Word` arithmetic wraps while plain-`int`
  arithmetic does not, and `Word.__eq__` masks its right operand.
* Python runtime errors (`TypeError`, `AttributeError`, `KeyError`) and the
  control-flow `StallException` are modelled with an explicit error type
  `PErr`; functions that can raise return `Except PErr _` or carry an
  `Option PErr` next to the partial state they had built before raising.
* Python dicts that the code fills (`packet.alu`, `packet.mem`, data memory)
  are association lists updated in insertion order, matching dict iteration
  order.
-/

namespace Pympp

/-- `Stage` enumeration of `base.py`: `BEGIN < IF < ID < EX < MEM < WB < END`. -/
inductive Stage where
  | BEGIN | IF | ID | EX | MEM | WB | END
deriving DecidableEq, Repr

/-- The ordinal of a stage (`Stage.value` in the Python `Enum`). -/
def Stage.val : Stage → Nat
  | .BEGIN => 0
  | .IF => 1
  | .ID => 2
  | .EX => 3
  | .MEM => 4
  | .WB => 5
  | .END => 6

/-- Successor map `PIPELINE` of `base.py` (the Python dict has no entry for
`END`; the simulator never looks `END` up, and we map it to itself). -/
def PIPELINE : Stage → Stage
  | .BEGIN => .IF
  | .IF => .ID
  | .ID => .EX
  | .EX => .MEM
  | .MEM => .WB
  | .WB => .END
  | .END => .END

/-- The list of stages strictly downstream of `s`, i.e. the successive values
taken by `s = PIPELINE[s]` in the `while s != Stage.END` loop of
`Pool.read_reg`. -/
def downstream : Stage → List Stage
  | .BEGIN => [.IF, .ID, .EX, .MEM, .WB]
  | .IF => [.ID, .EX, .MEM, .WB]
  | .ID => [.EX, .MEM, .WB]
  | .EX => [.MEM, .WB]
  | .MEM => [.WB]
  | .WB => []
  | .END => []

/-- 2^32, the modulus of `Word` arithmetic (`util/type.py`). -/
def wMod : Nat := 4294967296

/-- `Word(v)` for a Python `int` argument: `int(val) & 0xFFFFFFFF`, which for
negative values is the value modulo 2^32. -/
def wordOf (i : Int) : Nat := (i % (wMod : Int)).toNat

/-- The instruction kinds registered in `mips/set.py`. -/
inductive Kind where
  | add | sub | lui | ori | lw | sw | beq | jr | jal | nop
deriving DecidableEq, Repr

/-- `decode` of `mips/isa.py` restricted to choosing the class: the registry
key is `(opcode, funct)` when `opcode == 0` and `(opcode, None)` otherwise;
a missing key falls back to the entry registered for `(0, 0)` (`Nop`). -/
def decodeKind (code : Nat) : Kind :=
  let opcode := (code >>> 26) &&& 0x3F
  let funct := code &&& 0x3F
  if opcode == 0 then
    if funct == 0x20 then .add
    else if funct == 0x22 then .sub
    else if funct == 0x08 then .jr
    else if funct == 0x00 then .nop
    else .nop
  else
    if opcode == 0x0F then .lui
    else if opcode == 0x0D then .ori
    else if opcode == 0x23 then .lw
    else if opcode == 0x2B then .sw
    else if opcode == 0x04 then .beq
    else if opcode == 0x03 then .jal
    else .nop

/-- A decoded instruction: the raw 32-bit encoding together with the class
the registry selected for it. -/
structure Instr where
  raw : Nat
  kind : Kind
deriving DecidableEq, Repr

/-- `decode` of `mips/isa.py` (the `pc` argument of the Python function is
discarded: `instr_cls(machine_code)` stores only the code). -/
def decode (code : Nat) : Instr := ⟨code, decodeKind code⟩

namespace Instr

/-- Bit field `opcode = (raw >> 26) & 0x3F`. -/
def opcode (i : Instr) : Nat := (i.raw >>> 26) &&& 0x3F

/-- Bit field `rs = (raw >> 21) & 0x1F`. -/
def rs (i : Instr) : Nat := (i.raw >>> 21) &&& 0x1F

/-- Bit field `rt = (raw >> 16) & 0x1F`. -/
def rt (i : Instr) : Nat := (i.raw >>> 16) &&& 0x1F

/-- Bit field `rd = (raw >> 11) & 0x1F`. -/
def rd (i : Instr) : Nat := (i.raw >>> 11) &&& 0x1F

/-- Bit field `funct = raw & 0x3F`. -/
def funct (i : Instr) : Nat := i.raw &&& 0x3F

/-- Bit field `shamt = (raw >> 6) & 0x1F`. -/
def shamt (i : Instr) : Nat := (i.raw >>> 6) &&& 0x1F

/-- Bit field `imm16 = raw & 0xFFFF`. -/
def imm16 (i : Instr) : Nat := i.raw &&& 0xFFFF

/-- Sign-extended immediate: `val - 65536 if val & 0x8000 else val`. -/
def imm16s (i : Instr) : Int :=
  if i.imm16 &&& 0x8000 ≠ 0 then (i.imm16 : Int) - 65536 else (i.imm16 : Int)

/-- Bit field `imm26 = raw & 0x3FFFFFF`. -/
def imm26 (i : Instr) : Nat := i.raw &&& 0x3FFFFFF

/-- Timing metadata `tuse_rs` attached at registration in `mips/set.py`. -/
def tuse_rs (i : Instr) : Stage :=
  match i.kind with
  | .add | .sub | .ori | .lw | .sw => .EX
  | .beq | .jr => .ID
  | .lui | .jal | .nop => .BEGIN

/-- Timing metadata `tuse_rt` attached at registration in `mips/set.py`. -/
def tuse_rt (i : Instr) : Stage :=
  match i.kind with
  | .add | .sub => .EX
  | .sw => .MEM
  | .beq => .ID
  | .lui | .ori | .lw | .jr | .jal | .nop => .BEGIN

/-- Timing metadata `tnew` attached at registration in `mips/set.py`. -/
def tnew (i : Instr) : Stage :=
  match i.kind with
  | .add | .sub | .lui => .MEM
  | .ori | .jal => .EX
  | .lw => .WB
  | .sw | .beq | .jr | .nop => .END

/-- `Instruction.remaining(stage)`: `tnew - stage` clipped at zero (the
Python code computes the ordinal difference and returns it if positive). -/
def remaining (i : Instr) (s : Stage) : Nat := i.tnew.val - s.val

/-- `get_wreg` of each instruction class: `rd` for R-type ALU ops, `rt` for
`lui`/`ori`/`lw`, the constant 31 for `jal`, `None` otherwise. -/
def get_wreg (i : Instr) : Option Nat :=
  match i.kind with
  | .add | .sub => some i.rd
  | .lui | .ori | .lw => some i.rt
  | .jal => some 31
  | .sw | .beq | .jr | .nop => none

end Instr

/-- A program-counter value: plain Python `int`, or a `Word` object (as left
behind by `Jr.execute`, whose `packet.npc = rs_val` stores a `Word`). -/
inductive PcV where
  | int (i : Int)
  | word (w : Nat)
deriving DecidableEq, Repr

namespace PcV

/-- `pc + k` for a Python int `k`: exact on `int`, masked on `Word`
(`Word.__add__` truncates to 32 bits). -/
def addInt (p : PcV) (k : Int) : PcV :=
  match p with
  | .int i => .int (i + k)
  | .word w => .word (wordOf ((w : Int) + k))

/-- Python `==` between two pc values.  `int == int` is exact equality;
whenever a `Word` is involved, `Word.__eq__` compares its own value with the
other operand masked to 32 bits. -/
def eqb (a b : PcV) : Bool :=
  match a, b with
  | .int i, .int j => i == j
  | .word w, .int j => w == wordOf j
  | .int i, .word w => w == wordOf i
  | .word w, .word v => w == wordOf (v : Int)

end PcV

/-- `Change` record of `mips/isa.py` (pending write: origin value, new value,
reason string). -/
structure Change where
  origin : Nat
  new : Nat
  reason : String
deriving DecidableEq, Repr

/-- Insert-or-overwrite into an association list, keeping the original
position on overwrite (Python dict update semantics). -/
def dictPut {α : Type} (l : List (Nat × α)) (k : Nat) (v : α) : List (Nat × α) :=
  match l with
  | [] => [(k, v)]
  | (k', v') :: rest =>
    if k' == k then (k', v) :: rest else (k', v') :: dictPut rest k v

/-- Association-list lookup (Python `k in d` / `d[k]`). -/
def dictGet {α : Type} (l : List (Nat × α)) (k : Nat) : Option α :=
  match l with
  | [] => none
  | (k', v') :: rest => if k' == k then some v' else dictGet rest k

/-- In-flight `Packet` of `mips/isa.py`.  `optMemAddr` models the single
`"mem_addr"` key ever placed in the `optional` dict. -/
structure Packet where
  pc : PcV
  instr : Instr
  npc : PcV
  stage : Stage
  alu : List (Nat × Change)
  mem : List (Nat × Change)
  optMemAddr : Option Nat
deriving DecidableEq, Repr

/-- `Packet(pool, pc, instr)` as created by `CPU._stage_if`: `npc = pc + 4`,
stage `IF`, empty write maps. -/
def Packet.fresh (pc : PcV) (i : Instr) : Packet :=
  ⟨pc, i, pc.addInt 4, .IF, [], [], none⟩

/-- `packet.advance()`: move the stage one step along `PIPELINE`. -/
def Packet.advance (p : Packet) : Packet := { p with stage := PIPELINE p.stage }

/-- The data of a `StallException` (`base.py`): the reason string identifies
the register and the two counters `Tuse`/`Tnew`. -/
structure StallEx where
  reg : Nat
  tuseVal : Nat
  tnewVal : Nat
deriving DecidableEq, Repr

/-- Modelled Python runtime errors of the simulator:
* `stallE` — the `StallException` raised by the hazard checks (caught in
  `CPU._stage_id`);
* `typeErrorWriteMem` — `Sw.execute` calls `Pool.write_mem(addr, rt_val)`
  but the method signature is `write_mem(self, packet, addr, val)`, so the
  call raises `TypeError: missing 1 required positional argument`;
* `typeErrorJalPc` — `Jal.execute` computes `(imm26 << 2) | ((packet.pc + 4)
  & 0xF0000000)`; when `packet.pc` is a `Word` (after a `jr`) the `int | Word`
  operation raises `TypeError` (no `__ror__` on `Word`);
* `typeErrorDisasm` — `CPU.capture_snapshot` calls
  `p.instr.disassemble(p.pc)` but every `disassemble` takes no argument;
* `attrErrorJalPc` — `Jal.disassemble` reads the nonexistent `self.pc`;
* `attrErrorCurpkt` — `Pool.read_reg` dereferences `curpkt.instr` with
  `curpkt = None`;
* `keyErrorMemAddr` — `packet.optional["mem_addr"]` read before it was set. -/
inductive PErr where
  | stallE (e : StallEx)
  | typeErrorWriteMem
  | typeErrorJalPc
  | typeErrorDisasm
  | attrErrorJalPc
  | attrErrorCurpkt
  | keyErrorMemAddr
deriving DecidableEq, Repr

/-- Behavior records of `behaviors.py` that the cycle log can contain. -/
inductive Behavior where
  | regWrite (cycle : Nat) (pc : PcV) (reg : Nat) (val : Nat)
  | memWrite (cycle : Nat) (pc : PcV) (addr : Nat) (val : Nat)
  | fwd (cycle : Nat) (pc : PcV) (reg : Nat) (val : Nat) (fromS : Stage) (toS : Stage)
  | stallB (cycle : Nat) (pc : PcV) (e : StallEx)
  | branch (cycle : Nat) (pc : PcV) (target : PcV) (taken : Bool)
deriving DecidableEq, Repr

/-- The five pipeline slot buffers (`CPU.slots`; the dict also has keys
`BEGIN`/`END` which are never read or written). -/
structure SlotMap where
  sIF : Option Packet
  sID : Option Packet
  sEX : Option Packet
  sMEM : Option Packet
  sWB : Option Packet
deriving DecidableEq, Repr

/-- Slot lookup by stage (`self.cpu.slots[s]`; the `BEGIN`/`END` entries of
the Python dict are permanently `None`). -/
def SlotMap.get (m : SlotMap) : Stage → Option Packet
  | .IF => m.sIF
  | .ID => m.sID
  | .EX => m.sEX
  | .MEM => m.sMEM
  | .WB => m.sWB
  | .BEGIN => none
  | .END => none

/-- The mutable state of `CPU` that the stage functions touch:  `pc`, the
register file (32 words), instruction memory, sparse data memory, the cycle
counter, the slot map and the current-cycle behavior log. -/
structure CPUState where
  pc : PcV
  regs : List Nat
  imem : List Nat
  dmem : List (Nat × Nat)
  cycle : Nat
  slots : SlotMap
  behaviors : List Behavior
deriving DecidableEq, Repr

/-- `CPU.__init__(machine_codes)`: `pc = 0x3000`, 32 zero registers, empty
data memory, cycle 0, all slots empty. -/
def initState (machineCodes : List Nat) : CPUState :=
  ⟨.int 0x3000, List.replicate 32 0, machineCodes, [], 0,
    ⟨none, none, none, none, none⟩, []⟩

/-- `RegisterFile.read`: plain list lookup (register ids are 5-bit fields). -/
def regsRead (regs : List Nat) (r : Nat) : Nat := regs.getD r 0

/-- `RegisterFile.write` minus the logging: writes to `$0` are dropped,
other values are re-masked by the `Word` constructor. -/
def regsWrite (regs : List Nat) (r : Nat) (v : Nat) : List Nat :=
  if r == 0 then regs else regs.set r (v % wMod)

/-- `Memory.read`: `data.get(int(addr), 0)` (values stored are `Word`s). -/
def dmemRead (dmem : List (Nat × Nat)) (addr : Nat) : Nat :=
  (dictGet dmem addr).getD 0

/-- The inner loop of `Pool._detect_hazard`: scan the given slot keys in
order, skip empty slots and packets whose `get_wreg()` differs from `reg`;
the first matching producer decides — raise (`some`) iff
`Tuse < remaining(slot key)`, else return with no stall. -/
def detectHazardAux (slots : SlotMap) (reg : Nat) (tuse : Stage) :
    List Stage → Option StallEx
  | [] => none
  | s :: rest =>
    match slots.get s with
    | none => detectHazardAux slots reg tuse rest
    | some prod =>
      if prod.instr.get_wreg == some reg then
        let tnewVal := prod.instr.remaining s
        let tuseVal := tuse.val - Stage.ID.val
        if tuseVal < tnewVal then some ⟨reg, tuseVal, tnewVal⟩ else none
      else detectHazardAux slots reg tuse rest

/-- `Pool._detect_hazard(reg, t_use)`: nothing to do for `$0`, else scan the
slots `[EX, MEM, WB]`. -/
def detectHazard (slots : SlotMap) (reg : Nat) (tuse : Stage) : Option StallEx :=
  if reg == 0 then none
  else detectHazardAux slots reg tuse [.EX, .MEM, .WB]

/-- `Pool.check_stall(packet)`: check `rs` when `tuse_rs != BEGIN`, then `rt`
when `tuse_rt != BEGIN`; the first raised hazard wins. -/
def checkStall (slots : SlotMap) (p : Packet) : Option StallEx :=
  match (if p.instr.tuse_rs != .BEGIN then
           detectHazard slots p.instr.rs p.instr.tuse_rs
         else none) with
  | some e => some e
  | none =>
    if p.instr.tuse_rt != .BEGIN then
      detectHazard slots p.instr.rt p.instr.tuse_rt
    else none

/-- The defensive stall re-check inside `Pool.read_reg` (executed only when
`cur_stage == ID`): Python dereferences `curpkt.instr`, so a missing current
packet is an `AttributeError`; the consulted `tuse` is `tuse_rs` iff
`reg == curpkt.instr.rs`, else `tuse_rt`. -/
def idStallCheck (curpkt : Option Packet) (reg tnewVal : Nat) : Option PErr :=
  match curpkt with
  | none => some .attrErrorCurpkt
  | some cp =>
    let tuse := if reg == cp.instr.rs then cp.instr.tuse_rs else cp.instr.tuse_rt
    let tuseVal := tuse.val - Stage.ID.val
    if tuseVal < tnewVal then some (.stallE ⟨reg, tuseVal, tnewVal⟩) else none

/-- The `while s != Stage.END` walk of `Pool.read_reg` over the downstream
slot keys.  At the first slot whose packet writes `reg`: re-check the stall
condition when reading for ID; then forward (`alu[reg].new`, with a
`Forward` log when `log` is set) iff `remaining(slot key) == 0` and `reg`
is a key of the producer's `alu` dict; in every other case return the
committed register-file value — the walk does not continue past a matching
producer. -/
def readRegAux (st : CPUState) (reg : Nat) (cur : Stage) (curpkt : Option Packet)
    (log : Bool) : List Stage → Except PErr (Nat × Option Behavior)
  | [] => .ok (regsRead st.regs reg, none)
  | s :: rest =>
    match st.slots.get s with
    | none => readRegAux st reg cur curpkt log rest
    | some prod =>
      if prod.instr.get_wreg == some reg then
        let tnewVal := prod.instr.remaining s
        match (if cur == .ID then idStallCheck curpkt reg tnewVal else none) with
        | some e => .error e
        | none =>
          if tnewVal == 0 then
            match dictGet prod.alu reg with
            | some ch =>
              if log then
                match curpkt with
                | none => .error .attrErrorCurpkt
                | some cp =>
                  .ok (ch.new, some (.fwd st.cycle cp.pc reg ch.new s cur))
              else .ok (ch.new, none)
            | none => .ok (regsRead st.regs reg, none)
          else .ok (regsRead st.regs reg, none)
      else readRegAux st reg cur curpkt log rest

/-- `Pool.read_reg(reg, cur_stage, log)`: zero register short-circuits; the
current packet is looked up at `slots[cur_stage]` and the walk starts at the
successor of `cur_stage`. -/
def readReg (st : CPUState) (reg : Nat) (cur : Stage) (log : Bool) :
    Except PErr (Nat × Option Behavior) :=
  if reg == 0 then .ok (0, none)
  else readRegAux st reg cur (st.slots.get cur) log (downstream cur)

/-- `Pool.write_reg(packet, reg, val, reason)`: drop writes to `$0`;
otherwise stage `Change(origin=read_reg(reg, packet.stage, log=False),
new=Word(val), reason)` into the packet's `alu` dict.  The silent origin
read can itself raise the defensive `StallException`. -/
def writeReg (st : CPUState) (p : Packet) (reg : Nat) (val : Int)
    (reason : String) : Except PErr Packet :=
  if reg == 0 then .ok p
  else
    match readReg st reg p.stage false with
    | .error e => .error e
    | .ok (origin, _) =>
      .ok { p with alu := dictPut p.alu reg ⟨origin, wordOf val, reason⟩ }

/-- The `execute` method of the instruction classes in `mips/set.py`,
dispatched on the class and guarded by the packet's current stage exactly as
the Python code is.  The result is the packet as mutated so far, the
`Forward` behaviors logged by the operand reads performed so far, and the
exception (if any) in flight when control left the method — Python mutates
the packet in place, so mutations made before a raise survive (relevant for
`Jal`, which sets `npc` before its link-register write can raise the
defensive `StallException`). -/
def execInstr (st : CPUState) (p : Packet) : Packet × List Behavior × Option PErr :=
  match p.instr.kind with
  | .add =>
    if p.stage != .EX then (p, [], none) else
    match readReg st p.instr.rs p.stage true with
    | .error e => (p, [], some e)
    | .ok (rsv, b1) =>
      match readReg st p.instr.rt p.stage true with
      | .error e => (p, b1.toList, some e)
      | .ok (rtv, b2) =>
        match writeReg st p p.instr.rd (((rsv + rtv) % wMod : Nat) : Int) "add" with
        | .error e => (p, b1.toList ++ b2.toList, some e)
        | .ok p1 => (p1, b1.toList ++ b2.toList, none)
  | .sub =>
    if p.stage != .EX then (p, [], none) else
    match readReg st p.instr.rs p.stage true with
    | .error e => (p, [], some e)
    | .ok (rsv, b1) =>
      match readReg st p.instr.rt p.stage true with
      | .error e => (p, b1.toList, some e)
      | .ok (rtv, b2) =>
        match writeReg st p p.instr.rd ((wordOf ((rsv : Int) - (rtv : Int)) : Nat) : Int) "sub" with
        | .error e => (p, b1.toList ++ b2.toList, some e)
        | .ok p1 => (p1, b1.toList ++ b2.toList, none)
  | .lui =>
    if p.stage != .EX then (p, [], none) else
    match writeReg st p p.instr.rt ((p.instr.imm16 <<< 16 : Nat) : Int) "lui" with
    | .error e => (p, [], some e)
    | .ok p1 => (p1, [], none)
  | .ori =>
    if p.stage != .EX then (p, [], none) else
    match readReg st p.instr.rs p.stage true with
    | .error e => (p, [], some e)
    | .ok (rsv, b1) =>
      match writeReg st p p.instr.rt (((rsv ||| p.instr.imm16) % wMod : Nat) : Int) "ori" with
      | .error e => (p, b1.toList, some e)
      | .ok p1 => (p1, b1.toList, none)
  | .lw =>
    if p.stage == .EX then
      match readReg st p.instr.rs p.stage true with
      | .error e => (p, [], some e)
      | .ok (rsv, b1) =>
        ({ p with optMemAddr := some (wordOf ((rsv : Int) + p.instr.imm16s)) },
          b1.toList, none)
    else if p.stage == .MEM then
      match p.optMemAddr with
      | none => (p, [], some .keyErrorMemAddr)
      | some addr =>
        let memVal := dmemRead st.dmem addr
        match writeReg st p p.instr.rt (memVal : Int) "lw" with
        | .error e => (p, [], some e)
        | .ok p1 => (p1, [], none)
    else (p, [], none)
  | .sw =>
    if p.stage == .EX then
      match readReg st p.instr.rs p.stage true with
      | .error e => (p, [], some e)
      | .ok (rsv, b1) =>
        ({ p with optMemAddr := some (wordOf ((rsv : Int) + p.instr.imm16s)) },
          b1.toList, none)
    else if p.stage == .MEM then
      match p.optMemAddr with
      | none => (p, [], some .keyErrorMemAddr)
      | some _ =>
        match readReg st p.instr.rt p.stage true with
        | .error e => (p, [], some e)
        | .ok (_, b1) =>
          -- `packet.pool.write_mem(addr, rt_val)` passes the address where
          -- the method expects the packet and omits `val`: TypeError.
          (p, b1.toList, some .typeErrorWriteMem)
    else (p, [], none)
  | .beq =>
    if p.stage != .ID then (p, [], none) else
    match readReg st p.instr.rs p.stage true with
    | .error e => (p, [], some e)
    | .ok (rsv, b1) =>
      match readReg st p.instr.rt p.stage true with
      | .error e => (p, b1.toList, some e)
      | .ok (rtv, b2) =>
        if rsv == rtv then
          ({ p with npc := (p.pc.addInt 4).addInt (p.instr.imm16s * 4) },
            b1.toList ++ b2.toList, none)
        else (p, b1.toList ++ b2.toList, none)
  | .jr =>
    if p.stage != .ID then (p, [], none) else
    match readReg st p.instr.rs p.stage true with
    | .error e => (p, [], some e)
    | .ok (rsv, b1) => ({ p with npc := .word rsv }, b1.toList, none)
  | .jal =>
    if p.stage == .ID then
      match p.pc with
      | .word _ => (p, [], some .typeErrorJalPc)
      | .int i =>
        let target : Int :=
          Int.lor ((p.instr.imm26 <<< 2 : Nat) : Int) (Int.land (i + 4) 0xF0000000)
        let p1 := { p with npc := .int target }
        match writeReg st p1 31 (i + 8) "jal" with
        | .error e => (p1, [], some e)
        | .ok p2 => (p2, [], none)
    else (p, [], none)
  | .nop => (p, [], none)

/-- `CPU._stage_wb`: if the WB slot holds a packet, advance it (the mutation
is visible through the slot) and commit every pending `alu` entry to the
register file through `RegisterFile.write` (which drops `$0` and logs a
`RegWrite` per committed entry).  The slot is not cleared here. -/
def commitAlu (cycle : Nat) (pc : PcV) (regs : List Nat) :
    List (Nat × Change) → List Nat × List Behavior
  | [] => (regs, [])
  | (r, ch) :: rest =>
    if r == 0 then commitAlu cycle pc regs rest
    else
      let regs1 := regs.set r (ch.new % wMod)
      let (regs2, bs) := commitAlu cycle pc regs1 rest
      (regs2, .regWrite cycle pc r (ch.new % wMod) :: bs)

/-- State update of `CPU._stage_wb`. -/
def stageWB (st : CPUState) : CPUState :=
  match st.slots.sWB with
  | none => st
  | some p =>
    let p1 := p.advance
    let (regs1, bs) := commitAlu st.cycle p1.pc st.regs p1.alu
    { st with regs := regs1, behaviors := st.behaviors ++ bs,
              slots := { st.slots with sWB := some p1 } }

/-- The commit loop over `packet.mem` in `CPU._stage_mem`; `Memory.write`
stores the re-masked word and always logs a `MemWrite`. -/
def commitMem (cycle : Nat) (pc : PcV) (dmem : List (Nat × Nat)) :
    List (Nat × Change) → List (Nat × Nat) × List Behavior
  | [] => (dmem, [])
  | (a, ch) :: rest =>
    let d1 := dictPut dmem a (ch.new % wMod)
    let (d2, bs) := commitMem cycle pc d1 rest
    (d2, .memWrite cycle pc a (ch.new % wMod) :: bs)

/-- `CPU._stage_mem`: advance the MEM packet, run its execute (memory phase),
commit any pending `mem` entries, then move the packet into the WB slot.
The advanced/mutated packet stays visible in the MEM slot (Python mutates
the object in place); an empty MEM slot still clears WB. -/
def stageMEM (st : CPUState) : Except PErr CPUState :=
  match st.slots.sMEM with
  | none => .ok { st with slots := { st.slots with sWB := none } }
  | some p =>
    let p1 := p.advance
    let st1 := { st with slots := { st.slots with sMEM := some p1 } }
    match execInstr st1 p1 with
    | (_, _, some e) => .error e
    | (p2, bs, none) =>
      let (d1, bs2) := commitMem st.cycle p2.pc st.dmem p2.mem
      .ok { st1 with dmem := d1,
                     behaviors := st.behaviors ++ bs ++ bs2,
                     slots := { st1.slots with sMEM := some p2, sWB := some p2 } }

/-- `CPU._stage_ex`: advance the EX packet, run its execute (ALU phase), and
move it into the MEM slot; the mutated packet also remains visible in the
EX slot.  An empty EX slot propagates a bubble into MEM. -/
def stageEX (st : CPUState) : Except PErr CPUState :=
  match st.slots.sEX with
  | none => .ok { st with slots := { st.slots with sMEM := none } }
  | some p =>
    let p1 := p.advance
    let st1 := { st with slots := { st.slots with sEX := some p1 } }
    match execInstr st1 p1 with
    | (_, _, some e) => .error e
    | (p2, bs, none) =>
      .ok { st1 with behaviors := st.behaviors ++ bs,
                     slots := { st1.slots with sEX := some p2, sMEM := some p2 } }

/-- `CPU._stage_id`: advance the ID packet to stage ID if needed, run
`check_stall` and then the instruction's ID-phase execute inside a
`try/except StallException`; on a stall the EX slot becomes a bubble, a
`Stall` behavior is logged and the (partially mutated) packet stays in ID;
otherwise the packet moves into EX (staying aliased in ID).  Returns the
`is_stalled` flag. -/
def stageID (st : CPUState) : Except PErr (CPUState × Bool) :=
  match st.slots.sID with
  | none => .ok ({ st with slots := { st.slots with sEX := none } }, false)
  | some p =>
    let p1 := if p.stage != .ID then p.advance else p
    let st1 := { st with slots := { st.slots with sID := some p1 } }
    match checkStall st1.slots p1 with
    | some e =>
      .ok ({ st1 with slots := { st1.slots with sEX := none },
                      behaviors := st.behaviors ++ [.stallB st.cycle p1.pc e] },
           true)
    | none =>
      match execInstr st1 p1 with
      | (p2, bs, some (.stallE e)) =>
        .ok ({ st1 with slots := { st1.slots with sID := some p2, sEX := none },
                        behaviors := st.behaviors ++ bs ++ [.stallB st.cycle p2.pc e] },
             true)
      | (_, _, some e) => .error e
      | (p2, bs, none) =>
        .ok ({ st1 with slots := { st1.slots with sID := some p2, sEX := some p2 },
                        behaviors := st.behaviors ++ bs },
             false)

/-- The fetch-index computation and range test of `CPU._stage_if`:
`idx = (fetch_pc - 0x3000) // 4`, fetch iff `0 <= idx < len(imem)`.  On a
plain-int pc this is exact floor division; on a `Word` pc the subtraction
wraps modulo 2^32, `0 <= idx` is always true (comparison against a `Word`),
and the upper test masks the length. -/
def fetchIdx (pc : PcV) (imemLen : Nat) : Option Nat :=
  match pc with
  | .int i =>
    let idx := Int.fdiv (i - 0x3000) 4
    if 0 ≤ idx ∧ idx < (imemLen : Int) then some idx.toNat else none
  | .word w =>
    let idx := wordOf ((w : Int) - 0x3000) / 4
    if idx < imemLen % wMod then some idx else none

/-- `CPU._stage_if`: nothing on a stall; otherwise remember `fetch_pc`
(the pre-redirect pc), redirect `pc` to the ID-leaving packet's `npc` when
it differs from that packet's `pc + 4` (else `pc += 4`), then fetch the word
at `fetch_pc`, install a fresh packet in ID and log the (taken) `Branch` —
both fetch and branch log only when the index is in range. -/
def stageIF (st : CPUState) (isStalled : Bool) : CPUState :=
  if isStalled then st
  else
    let taken := match st.slots.sID with
      | some q => !PcV.eqb q.npc (q.pc.addInt 4)
      | none => false
    let pc' := match st.slots.sID with
      | some q => if !PcV.eqb q.npc (q.pc.addInt 4) then q.npc else st.pc.addInt 4
      | none => st.pc.addInt 4
    match fetchIdx st.pc st.imem.length with
    | some idx =>
      let code := st.imem.getD idx 0
      let newp := Packet.fresh st.pc (decode code)
      let bs :=
        match st.slots.sID with
        | some q => if taken then [Behavior.branch st.cycle q.pc q.npc true] else []
        | none => []
      { st with pc := pc', behaviors := st.behaviors ++ bs,
                slots := { st.slots with sID := some newp } }
    | none =>
      { st with pc := pc', slots := { st.slots with sID := none } }

/-- One `CPU.step()` without the final `capture_snapshot` call: bump the
cycle counter, clear the behavior log, then run the five stage functions
back to front.  The result carries the `is_stalled` flag `_stage_id`
returned.  (`self.shadows = self.slots.copy()` is dead state and is not
modelled.) -/
def stepCore (st : CPUState) : Except PErr (CPUState × Bool) :=
  let st0 := { st with cycle := st.cycle + 1, behaviors := [] }
  let st1 := stageWB st0
  match stageMEM st1 with
  | .error e => .error e
  | .ok st2 =>
    match stageEX st2 with
    | .error e => .error e
    | .ok st3 =>
      match stageID st3 with
      | .error e => .error e
      | .ok (st4, stalled) => .ok (stageIF st4 stalled, stalled)

/-- Iterated `stepCore` (the architectural-state part of stepping `n`
times); an exception aborts the run. -/
def stepN (st : CPUState) : Nat → Except PErr CPUState
  | 0 => .ok st
  | n + 1 =>
    match stepN st n with
    | .error e => .error e
    | .ok s =>
      match stepCore s with
      | .error e => .error e
      | .ok (s', _) => .ok s'

/-- Whether `CPU.capture_snapshot` raises: it iterates the five stage slots
and, for the first one holding a packet, evaluates
`p.instr.disassemble(p.pc)` — but every `disassemble` in `mips/set.py` takes
no positional argument, so the call is a `TypeError`.  The snapshot
therefore completes only when every slot is empty. -/
def captureCrashes (st : CPUState) : Bool :=
  st.slots.sIF.isSome || st.slots.sID.isSome || st.slots.sEX.isSome ||
    st.slots.sMEM.isSome || st.slots.sWB.isSome

/-- A full `CPU.step()` including `capture_snapshot` (whose snapshot record,
when it completes, is appended to `history`; the record itself is not
modelled, only whether the call returns). -/
def fullStep (st : CPUState) : Except PErr (CPUState × Bool) :=
  match stepCore st with
  | .error e => .error e
  | .ok (s, stalled) =>
    if captureCrashes s then .error .typeErrorDisasm else .ok (s, stalled)

/-- Python `hex(n)` for a nonnegative argument: `0x` followed by lowercase
hexadecimal digits. -/
def natHex (n : Nat) : String := "0x" ++ String.mk (Nat.toDigits 16 n)

/-- The `disassemble` methods of `mips/set.py`, called with no argument as
`disassemble(decode(encoding))`.  `Jal.disassemble` evaluates `self.pc`,
an attribute no `Instruction` instance has (`decode` drops its `pc`
argument), so it raises `AttributeError`. -/
def Instr.disassemble (i : Instr) : Except PErr String :=
  match i.kind with
  | .add =>
    let d := i.rd; let s := i.rs; let t := i.rt
    .ok s!"add ${d}, ${s}, ${t}"
  | .sub =>
    let d := i.rd; let s := i.rs; let t := i.rt
    .ok s!"sub ${d}, ${s}, ${t}"
  | .lui =>
    let t := i.rt; let v := natHex i.imm16
    .ok s!"lui ${t}, {v}"
  | .ori =>
    let t := i.rt; let s := i.rs; let v := natHex i.imm16
    .ok s!"ori ${t}, ${s}, {v}"
  | .lw =>
    let t := i.rt; let s := i.rs; let v := i.imm16s
    .ok s!"lw ${t}, {v}(${s})"
  | .sw =>
    let t := i.rt; let s := i.rs; let v := i.imm16s
    .ok s!"sw ${t}, {v}(${s})"
  | .beq =>
    let s := i.rs; let t := i.rt; let v := i.imm16s
    .ok s!"beq ${s}, ${t}, {v}"
  | .jr =>
    let s := i.rs
    .ok s!"jr ${s}"
  | .jal => .error .attrErrorJalPc
  | .nop => .ok "nop"

/-! ### Concrete programs used to exercise the simulator -/

/-- The halt sentinel `beq $0, $0, -1` as a one-instruction program. -/
def progHalt : List Nat := [0x1000FFFF]

/-- Scenario 3 of the specification (store/load round-trip):
`ori $1,$0,0xBEEF; ori $2,$0,0x20; sw $1,0($2); lw $3,0($2); add $4,$3,$0;
beq $0,$0,-1`. -/
def progStoreLoad : List Nat :=
  [0x3401BEEF, 0x34020020, 0xAC410000, 0x8C430000, 0x00602020, 0x1000FFFF]

/-- Scenario 4 of the specification (taken branch):
`ori $1,$0,1; ori $2,$0,1; beq $1,$2,1; ori $3,$0,0xFF; ori $4,$0,0xAA`. -/
def progBranch : List Nat :=
  [0x34010001, 0x34020001, 0x10220001, 0x340300FF, 0x340400AA]

/-- The pc value of a run after `n` steps, when no exception occurred. -/
def pcAfter (prog : List Nat) (n : Nat) : Option PcV :=
  (stepN (initState prog) n).toOption.map CPUState.pc

/-- The register file of a run after `n` steps, when no exception occurred. -/
def regsAfter (prog : List Nat) (n : Nat) : Option (List Nat) :=
  (stepN (initState prog) n).toOption.map CPUState.regs

/-- The range the specification asserts for the program counter: word-aligned
and inside `[0x3000, 0x3000 + 4·|imem|]` or one past the end. -/
def pcClaimRange (i : Int) (len : Nat) : Prop :=
  i % 4 = 0 ∧
    ((0x3000 ≤ i ∧ i ≤ 0x3000 + 4 * (len : Int)) ∨ i = 0x3000 + 4 * (len : Int) + 4)

/-! ### C2, C3, C7, C9 — runtime behavior at concrete inputs -/

/-- C2: the claim says that when the WB stage commits `beq $0,$0,-1`
(encoding `0x1000FFFF`) the simulator halts and performs no further steps.
On the one-instruction sentinel program the sentinel packet sits in the WB
slot when cycle 5 starts, so WB commits it during step 5 — yet step 6 still
succeeds and changes the pc (the `CPU` class has no halt flag and
`_stage_wb` performs no sentinel check), refuting the claim. -/
theorem C2_sentinel_does_not_halt :
    (stepN (initState progHalt) 4).toOption.bind
        (fun s => s.slots.sWB.map (fun p => p.instr.raw)) = some 0x1000FFFF ∧
    pcAfter progHalt 5 = some (.int 0x3004) ∧
    pcAfter progHalt 6 = some (.int 0x3000) ∧
    PcV.int 0x3004 ≠ PcV.int 0x3000 := by
  refine ⟨rfl, rfl, rfl, by decide⟩

/-- C3: the claim says a `sw` in MEM records and commits `mem[addr] = rt`
(scenario 3 ending with `mem[0x20] = 0xBEEF`).  In the code, `Sw.execute`
calls `Pool.write_mem(addr, rt_val)` although the method's signature is
`write_mem(self, packet, addr, val)`, so the call raises `TypeError`.  On
the scenario-3 program the EX phase does compute the address `0x20`, but
the first cycle in which the `sw` is in MEM (step 6) crashes the simulator
and data memory is never written. -/
theorem C3_sw_store_crashes :
    (stepN (initState progStoreLoad) 5).toOption.bind
        (fun s => s.slots.sMEM.map (fun p => (p.instr.kind, p.optMemAddr)))
      = some (Kind.sw, some 0x20) ∧
    (stepN (initState progStoreLoad) 5).toOption.map CPUState.dmem = some [] ∧
    stepN (initState progStoreLoad) 6 = .error .typeErrorWriteMem := by
  refine ⟨rfl, rfl, rfl⟩

/-- C7: the claim says every `step()` emits one snapshot record and returns
normally.  But `capture_snapshot` calls `p.instr.disassemble(p.pc)` while
every `disassemble` method takes no positional argument, so the very first
step of any nonempty program (here a single `nop`) raises `TypeError` after
the stage functions have run: the stage part of the step succeeds and
leaves a packet in the ID slot, and the snapshot then crashes. -/
theorem C7_snapshot_typeerror :
    (stepCore (initState [0x0])).toOption.isSome = true ∧
    (stepCore (initState [0x0])).toOption.map
        (fun r => captureCrashes r.fst) = some true ∧
    fullStep (initState [0x0]) = .error .typeErrorDisasm := by
  refine ⟨rfl, rfl, rfl⟩

/-- C9: the claim says `disassemble(decode(encoding))` returns normally with
the canonical text for every supported kind, in particular `jal`.  For the
nine non-`jal` kinds the canonical §6 texts are produced, but
`Jal.disassemble` evaluates the nonexistent attribute `self.pc` (the `pc`
passed to `decode` is discarded), raising `AttributeError`. -/
theorem C9_jal_disassemble_raises :
    Instr.disassemble (decode 0x0C000C04) = .error .attrErrorJalPc ∧
    Instr.disassemble (decode 0x00221820) = .ok "add $3, $1, $2" ∧
    Instr.disassemble (decode 0x00221822) = .ok "sub $3, $1, $2" ∧
    Instr.disassemble (decode 0x3C041000) = .ok "lui $4, 0x1000" ∧
    Instr.disassemble (decode 0x3484ABCD) = .ok "ori $4, $4, 0xabcd" ∧
    Instr.disassemble (decode 0x8FA5FFFC) = .ok "lw $5, -4($29)" ∧
    Instr.disassemble (decode 0xAC410000) = .ok "sw $1, 0($2)" ∧
    Instr.disassemble (decode 0x10220007) = .ok "beq $1, $2, 7" ∧
    Instr.disassemble (decode 0x03E00008) = .ok "jr $31" ∧
    Instr.disassemble (decode 0x0) = .ok "nop" := by
  refine ⟨rfl, rfl, rfl, rfl, rfl, rfl, rfl, rfl, rfl, rfl⟩

/-! ### C4, C5 — hazard-scan order and forwarding fall-through -/

/-- The first slot in the given scan order holding a packet whose
`get_wreg()` equals `reg` (empty and non-matching slots are skipped). -/
def firstProducerAux (slots : SlotMap) (reg : Nat) :
    List Stage → Option (Stage × Packet)
  | [] => none
  | s :: rest =>
    match slots.get s with
    | none => firstProducerAux slots reg rest
    | some p =>
      if p.instr.get_wreg == some reg then some (s, p)
      else firstProducerAux slots reg rest

/-- Spec-side definition following C4's words: select the most-downstream
matching producer among the EX, MEM and WB slots (i.e. scan `WB, MEM, EX`),
and stall exactly when `Tuse < remaining` for that producer. -/
def specHazardDecision (slots : SlotMap) (reg : Nat) (tuse : Stage) : Bool :=
  if reg == 0 then false
  else
    match firstProducerAux slots reg [.WB, .MEM, .EX] with
    | none => false
    | some (s, p) => decide (tuse.val - Stage.ID.val < p.instr.remaining s)

/-- Spec-side definition following C5's words: walk the downstream slots and
deliver the pending `alu` value of the first producer of `reg` that is
forwardable (`Tnew = 0` and `alu` contains `reg`), falling through past
non-forwardable producers; only if none is forwardable return the committed
register-file value. -/
def specForwardScan (st : CPUState) (reg : Nat) : List Stage → Option Nat
  | [] => none
  | s :: rest =>
    match st.slots.get s with
    | none => specForwardScan st reg rest
    | some p =>
      if p.instr.get_wreg == some reg ∧ p.instr.remaining s = 0 ∧
          (dictGet p.alu reg).isSome then
        (dictGet p.alu reg).map Change.new
      else specForwardScan st reg rest

/-- The operand value C5 claims the read should produce. -/
def specReadValue (st : CPUState) (reg : Nat) (cur : Stage) : Nat :=
  if reg == 0 then 0
  else (specForwardScan st reg (downstream cur)).getD (regsRead st.regs reg)

/-- A `lw $1, 0($0)` packet (writes `$1`, `tnew = WB`), as left in a slot. -/
def lwPkt : Packet := ⟨.int 0x3004, decode 0x8C010000, .int 0x3008, .EX, [], [], none⟩

/-- An `add $1, $0, $0` packet with its pending result `$1 ← 42` staged. -/
def addPkt : Packet :=
  ⟨.int 0x3000, decode 0x00000820, .int 0x3004, .MEM,
    [(1, ⟨0, 42, "add"⟩)], [], none⟩

/-- Slot configuration with the `lw` producer of `$1` in the EX slot and the
`add` producer of `$1` in the WB slot. -/
def cex4Slots : SlotMap := ⟨none, none, some lwPkt, none, some addPkt⟩

/-- C4 (counterexample): with a `lw $1` in the EX slot
(`remaining(EX) = 2`) and an `add $1` in the WB slot (`remaining(WB) = 0`),
a consumer with `tuse = EX` (`Tuse = 1`) is stalled by the code — the scan
returns at the first match, EX, the most-upstream one — whereas the claim's
most-downstream rule (the `add` in WB, `Tnew = 0`) predicts no stall. -/
theorem C4_first_match_not_most_downstream :
    (detectHazard cex4Slots 1 .EX).isSome = true ∧
    specHazardDecision cex4Slots 1 .EX = false := by
  refine ⟨rfl, rfl⟩

/-- Characterization used by the amended C4/C5: `_detect_hazard` is decided
by the first matching producer of the scan list. -/
theorem detectHazardAux_eq_firstProducer (slots : SlotMap) (reg : Nat)
    (tuse : Stage) (l : List Stage) :
    detectHazardAux slots reg tuse l =
      (match firstProducerAux slots reg l with
       | none => none
       | some (s, p) =>
         if tuse.val - Stage.ID.val < p.instr.remaining s then
           some ⟨reg, tuse.val - Stage.ID.val, p.instr.remaining s⟩
         else none) := by
  induction l with
  | nil => rfl
  | cons s rest ih =>
    simp only [detectHazardAux, firstProducerAux]
    cases slots.get s with
    | none => exact ih
    | some p =>
      by_cases h : p.instr.get_wreg == some reg
      · simp [h]
      · simp [h, ih]

/-- C4 (amended): the decode-stage stall decision is made by the first
matching producer in scan order `EX, MEM, WB` — the most-upstream one, not
the most-downstream — and a stall is raised iff
`Tuse = max(0, tuse - ID) < remaining` computed for that producer at its
slot; producers behind the first match never influence the outcome. -/
theorem C4_first_upstream_producer_decides (slots : SlotMap) (reg : Nat)
    (tuse : Stage) (hreg : reg ≠ 0) :
    detectHazard slots reg tuse =
      (match firstProducerAux slots reg [.EX, .MEM, .WB] with
       | none => none
       | some (s, p) =>
         if tuse.val - Stage.ID.val < p.instr.remaining s then
           some ⟨reg, tuse.val - Stage.ID.val, p.instr.remaining s⟩
         else none) := by
  have : (reg == 0) = false := by
    simpa using hreg
  simp only [detectHazard, this, Bool.false_eq_true, if_false]
  exact detectHazardAux_eq_firstProducer slots reg tuse _

/-- Witness for the amended C4 at a concrete input. -/
theorem C4_first_upstream_producer_decides_w :
    detectHazard cex4Slots 1 .EX =
      (match firstProducerAux cex4Slots 1 [.EX, .MEM, .WB] with
       | none => none
       | some (s, p) =>
         if Stage.val .EX - Stage.ID.val < p.instr.remaining s then
           some ⟨1, Stage.val .EX - Stage.ID.val, p.instr.remaining s⟩
         else none) :=
  C4_first_upstream_producer_decides cex4Slots 1 .EX (by decide)

/-- CPU state for the C5 counterexample: committed `$1 = 7`; the `lw $1`
producer (not yet ready, `remaining(MEM) = 1`) sits in the MEM slot and the
forwardable `add $1` producer (pending value 42) sits in the WB slot. -/
def cex5State : CPUState :=
  ⟨.int 0x300C, 0 :: 7 :: List.replicate 30 0, [], [], 3,
    ⟨none, none, some ⟨.int 0x3008, decode 0x00212820, .int 0x300C, .ID, [], [], none⟩,
      some lwPkt, some addPkt⟩, []⟩

/-- C5 (counterexample): reading `$1` at EX, the walk stops at the first
matching producer (the `lw` in MEM, `Tnew = 1 ≠ 0`) and returns the
committed register-file value 7 — it does not fall through to the
forwardable `add` in WB whose pending value is 42, which is what the
claim's fall-through rule would deliver. -/
theorem C5_no_fall_through :
    readReg cex5State 1 .EX true = .ok (7, none) ∧
    specReadValue cex5State 1 .EX = 42 ∧ (7 : Nat) ≠ 42 := by
  refine ⟨rfl, rfl, by decide⟩

/-- C5 (amended): for a read of a nonzero register outside the ID stage
(where no defensive stall re-check applies) with logging off, the first
matching downstream producer fully decides the result: its pending `alu`
value if `Tnew = 0` and the `alu` map contains the register, else the
committed register-file value — the walk never continues past a matching
producer, and the committed value is also returned when no producer
matches. -/
theorem C5_first_producer_decides (st : CPUState) (reg : Nat) (cur : Stage)
    (hreg : reg ≠ 0) (hcur : cur ≠ .ID) :
    readReg st reg cur false =
      (match firstProducerAux st.slots reg (downstream cur) with
       | none => .ok (regsRead st.regs reg, none)
       | some (s, p) =>
         if p.instr.remaining s = 0 then
           match dictGet p.alu reg with
           | some ch => .ok (ch.new, none)
           | none => .ok (regsRead st.regs reg, none)
         else .ok (regsRead st.regs reg, none)) := by
  have hr : (reg == 0) = false := by simpa using hreg
  have hc : (cur == Stage.ID) = false := by
    simpa using hcur
  simp only [readReg, hr, Bool.false_eq_true, if_false]
  generalize st.slots.get cur = curpkt
  induction downstream cur with
  | nil => rfl
  | cons s rest ih =>
    simp only [readRegAux, firstProducerAux]
    cases st.slots.get s with
    | none => exact ih
    | some p =>
      by_cases h : p.instr.get_wreg == some reg
      · simp only [h, if_true, hc, Bool.false_eq_true, if_false]
        by_cases h0 : p.instr.remaining s = 0
        · simp only [h0, beq_self_eq_true, if_true]
        · have h0' : (p.instr.remaining s == 0) = false := by simpa using h0
          simp [h0', h0]
      · simp only [h, Bool.false_eq_true, if_false]
        exact ih

/-- Witness for the amended C5 at the concrete counterexample state. -/
theorem C5_first_producer_decides_w :
    readReg cex5State 1 .EX false =
      (match firstProducerAux cex5State.slots 1 (downstream .EX) with
       | none => .ok (regsRead cex5State.regs 1, none)
       | some (s, p) =>
         if p.instr.remaining s = 0 then
           match dictGet p.alu 1 with
           | some ch => .ok (ch.new, none)
           | none => .ok (regsRead cex5State.regs 1, none)
         else .ok (regsRead cex5State.regs 1, none)) :=
  C5_first_producer_decides cex5State 1 .EX (by decide) (by decide)

/-! ### Structural lemmas about one cycle, used by C1, C6, C10 -/

/-- Whether a behavior record is a (taken or untaken) `Branch`. -/
def isBranchB : Behavior → Bool
  | .branch _ _ _ _ => true
  | _ => false

/-- Whether a behavior record is a `Forward`. -/
def isFwdB : Behavior → Bool
  | .fwd _ _ _ _ _ _ => true
  | _ => false

theorem readRegAux_ok_fwd (st : CPUState) (reg : Nat) (cur : Stage)
    (curpkt : Option Packet) (log : Bool) :
    ∀ (l : List Stage) (v : Nat) (b : Behavior),
      readRegAux st reg cur curpkt log l = .ok (v, some b) → isFwdB b = true := by
  intro l
  induction l with
  | nil => intro v b h; simp only [readRegAux] at h; cases h
  | cons s rest ih =>
    intro v b h
    simp only [readRegAux] at h
    cases hs : st.slots.get s with
    | none => rw [hs] at h; exact ih v b h
    | some p =>
      rw [hs] at h
      by_cases hw : p.instr.get_wreg == some reg
      · simp only [hw, if_true] at h
        cases hch : (if cur == Stage.ID then idStallCheck curpkt reg (p.instr.remaining s) else none) with
        | some e => rw [hch] at h; cases h
        | none =>
          rw [hch] at h
          by_cases h0 : (p.instr.remaining s == 0) = true
          · simp only [h0, if_true] at h
            cases hd : dictGet p.alu reg with
            | some ch =>
              rw [hd] at h
              cases log with
              | false => simp at h
              | true =>
                cases curpkt with
                | none => simp at h
                | some cp =>
                  simp only at h
                  cases h
                  rfl
            | none => rw [hd] at h; cases h
          · simp only [eq_false_of_ne_true h0, if_false] at h
            cases h
      · simp only [hw, if_false] at h
        exact ih v b h

theorem readReg_ok_fwd (st : CPUState) (reg : Nat) (cur : Stage) (log : Bool)
    (v : Nat) (b : Behavior) (h : readReg st reg cur log = .ok (v, some b)) :
    isFwdB b = true := by
  unfold readReg at h
  by_cases h0 : (reg == 0) = true
  · simp only [h0, if_true] at h; cases h
  · simp only [eq_false_of_ne_true h0, if_false] at h
    exact readRegAux_ok_fwd st reg cur _ log _ v b h

theorem writeReg_ok_pres (st : CPUState) (p : Packet) (reg : Nat) (v : Int)
    (r : String) (q : Packet) (h : writeReg st p reg v r = .ok q) :
    q.pc = p.pc ∧ q.instr = p.instr ∧ q.npc = p.npc := by
  unfold writeReg at h
  by_cases h0 : (reg == 0) = true
  · simp only [h0, if_true] at h; cases h; exact ⟨rfl, rfl, rfl⟩
  · simp only [eq_false_of_ne_true h0, if_false] at h
    cases hr : readReg st reg p.stage false with
    | error e => rw [hr] at h; cases h
    | ok w => rw [hr] at h; cases h; exact ⟨rfl, rfl, rfl⟩

/-- The execute methods never modify the packet's `pc` or decoded
instruction, and every behavior they emit is a `Forward` record. -/
theorem execInstr_spec (st : CPUState) (p : Packet) :
    (execInstr st p).1.pc = p.pc ∧ (execInstr st p).1.instr = p.instr ∧
      ∀ b ∈ (execInstr st p).2.1, isFwdB b = true := by
  have hopt : ∀ (reg : Nat) (cur : Stage) (lg : Bool) (v : Nat)
      (ob : Option Behavior), readReg st reg cur lg = .ok (v, ob) →
      ∀ b ∈ ob.toList, isFwdB b = true := by
    intro reg cur lg v ob hr b hb
    cases ob with
    | none => simp at hb
    | some x =>
      simp only [Option.toList_some, List.mem_singleton] at hb
      subst hb
      exact readReg_ok_fwd st reg cur lg v b hr
  have hnil : ∀ b ∈ ([] : List Behavior), isFwdB b = true := by
    intro b hb; simp at hb
  have happ : ∀ (o1 o2 : Option Behavior) (r1 : Nat) (c1 : Stage) (l1 : Bool)
      (v1 : Nat) (r2 : Nat) (c2 : Stage) (l2 : Bool) (v2 : Nat),
      readReg st r1 c1 l1 = .ok (v1, o1) → readReg st r2 c2 l2 = .ok (v2, o2) →
      ∀ b ∈ o1.toList ++ o2.toList, isFwdB b = true := by
    intro o1 o2 r1 c1 l1 v1 r2 c2 l2 v2 h1 h2 b hb
    rcases List.mem_append.mp hb with h | h
    exacts [hopt _ _ _ _ _ h1 b h, hopt _ _ _ _ _ h2 b h]
  unfold execInstr
  cases hk : p.instr.kind
  case add =>
    dsimp only
    split
    · exact ⟨rfl, rfl, hnil⟩
    split
    · exact ⟨rfl, rfl, hnil⟩
    rename_i v1 ob1 hr1
    split
    · rename_i e hr2
      exact ⟨rfl, rfl, hopt _ _ _ _ _ hr1⟩
    rename_i v2 ob2 hr2
    split
    · rename_i e hw
      exact ⟨rfl, rfl, happ _ _ _ _ _ _ _ _ _ _ hr1 hr2⟩
    rename_i p1 hw
    have h := writeReg_ok_pres _ _ _ _ _ _ hw
    exact ⟨h.1, h.2.1, happ _ _ _ _ _ _ _ _ _ _ hr1 hr2⟩
  case sub =>
    dsimp only
    split
    · exact ⟨rfl, rfl, hnil⟩
    split
    · exact ⟨rfl, rfl, hnil⟩
    rename_i v1 ob1 hr1
    split
    · rename_i e hr2
      exact ⟨rfl, rfl, hopt _ _ _ _ _ hr1⟩
    rename_i v2 ob2 hr2
    split
    · rename_i e hw
      exact ⟨rfl, rfl, happ _ _ _ _ _ _ _ _ _ _ hr1 hr2⟩
    rename_i p1 hw
    have h := writeReg_ok_pres _ _ _ _ _ _ hw
    exact ⟨h.1, h.2.1, happ _ _ _ _ _ _ _ _ _ _ hr1 hr2⟩
  case lui =>
    dsimp only
    split
    · exact ⟨rfl, rfl, hnil⟩
    split
    · exact ⟨rfl, rfl, hnil⟩
    rename_i p1 hw
    have h := writeReg_ok_pres _ _ _ _ _ _ hw
    exact ⟨h.1, h.2.1, hnil⟩
  case ori =>
    dsimp only
    split
    · exact ⟨rfl, rfl, hnil⟩
    split
    · exact ⟨rfl, rfl, hnil⟩
    rename_i v1 ob1 hr1
    split
    · rename_i e hw
      exact ⟨rfl, rfl, hopt _ _ _ _ _ hr1⟩
    rename_i p1 hw
    have h := writeReg_ok_pres _ _ _ _ _ _ hw
    exact ⟨h.1, h.2.1, hopt _ _ _ _ _ hr1⟩
  case lw =>
    dsimp only
    split
    · split
      · exact ⟨rfl, rfl, hnil⟩
      rename_i v1 ob1 hr1
      exact ⟨rfl, rfl, hopt _ _ _ _ _ hr1⟩
    split
    · split
      · exact ⟨rfl, rfl, hnil⟩
      rename_i addr hma
      split
      · exact ⟨rfl, rfl, hnil⟩
      rename_i p1 hw
      have h := writeReg_ok_pres _ _ _ _ _ _ hw
      exact ⟨h.1, h.2.1, hnil⟩
    exact ⟨rfl, rfl, hnil⟩
  case sw =>
    dsimp only
    split
    · split
      · exact ⟨rfl, rfl, hnil⟩
      rename_i v1 ob1 hr1
      exact ⟨rfl, rfl, hopt _ _ _ _ _ hr1⟩
    split
    · split
      · exact ⟨rfl, rfl, hnil⟩
      rename_i addr hma
      split
      · exact ⟨rfl, rfl, hnil⟩
      rename_i v1 ob1 hr1
      exact ⟨rfl, rfl, hopt _ _ _ _ _ hr1⟩
    exact ⟨rfl, rfl, hnil⟩
  case beq =>
    dsimp only
    split
    · exact ⟨rfl, rfl, hnil⟩
    split
    · exact ⟨rfl, rfl, hnil⟩
    rename_i v1 ob1 hr1
    split
    · rename_i e hr2
      exact ⟨rfl, rfl, hopt _ _ _ _ _ hr1⟩
    rename_i v2 ob2 hr2
    split
    · exact ⟨rfl, rfl, happ _ _ _ _ _ _ _ _ _ _ hr1 hr2⟩
    · exact ⟨rfl, rfl, happ _ _ _ _ _ _ _ _ _ _ hr1 hr2⟩
  case jr =>
    dsimp only
    split
    · exact ⟨rfl, rfl, hnil⟩
    split
    · exact ⟨rfl, rfl, hnil⟩
    rename_i v1 ob1 hr1
    exact ⟨rfl, rfl, hopt _ _ _ _ _ hr1⟩
  case jal =>
    dsimp only
    split
    · split
      · exact ⟨rfl, rfl, hnil⟩
      rename_i i hpc
      split
      · exact ⟨rfl, rfl, hnil⟩
      rename_i p2 hw
      have h := writeReg_ok_pres _ _ _ _ _ _ hw
      exact ⟨h.1, h.2.1, hnil⟩
    exact ⟨rfl, rfl, hnil⟩
  case nop =>
    exact ⟨rfl, rfl, hnil⟩

theorem fwd_not_branch (b : Behavior) (h : isFwdB b = true) : isBranchB b = false := by
  cases b <;> simp_all [isFwdB, isBranchB]

theorem commitAlu_no_branch (c : Nat) (pc : PcV) :
    ∀ (l : List (Nat × Change)) (regs : List Nat),
      ∀ b ∈ (commitAlu c pc regs l).2, isBranchB b = false := by
  intro l
  induction l with
  | nil => intro regs b hb; simp [commitAlu] at hb
  | cons hd tl ih =>
    intro regs b hb
    obtain ⟨r, ch⟩ := hd
    simp only [commitAlu] at hb
    by_cases h0 : (r == 0) = true
    · rw [if_pos h0] at hb
      exact ih regs b hb
    · rw [if_neg (by simp_all)] at hb
      rcases hcm : commitAlu c pc (regs.set r (ch.new % wMod)) tl with ⟨regs2, bs⟩
      rw [hcm] at hb
      simp only at hb
      rcases List.mem_cons.mp hb with h | h
      · subst h; rfl
      · exact ih _ b (by rw [hcm]; exact h)

theorem commitMem_no_branch (c : Nat) (pc : PcV) :
    ∀ (l : List (Nat × Change)) (dm : List (Nat × Nat)),
      ∀ b ∈ (commitMem c pc dm l).2, isBranchB b = false := by
  intro l
  induction l with
  | nil => intro dm b hb; simp [commitMem] at hb
  | cons hd tl ih =>
    intro dm b hb
    obtain ⟨a, ch⟩ := hd
    simp only [commitMem] at hb
    rcases hcm : commitMem c pc (dictPut dm a (ch.new % wMod)) tl with ⟨d2, bs⟩
    rw [hcm] at hb
    simp only at hb
    rcases List.mem_cons.mp hb with h | h
    · subst h; rfl
    · exact ih _ b (by rw [hcm]; exact h)

/-- Fields `_stage_wb` leaves untouched, and the shape of its log entries. -/
theorem stageWB_spec (st : CPUState) :
    (stageWB st).pc = st.pc ∧ (stageWB st).imem = st.imem ∧
      (stageWB st).cycle = st.cycle ∧ (stageWB st).dmem = st.dmem ∧
      (stageWB st).slots.sID = st.slots.sID ∧
      (stageWB st).slots.sEX = st.slots.sEX ∧
      (stageWB st).slots.sMEM = st.slots.sMEM ∧
      ∃ bs, (stageWB st).behaviors = st.behaviors ++ bs ∧
        ∀ b ∈ bs, isBranchB b = false := by
  unfold stageWB
  cases st.slots.sWB with
  | none =>
    exact ⟨rfl, rfl, rfl, rfl, rfl, rfl, rfl, [], by simp, by intro b hb; simp at hb⟩
  | some p =>
    dsimp only
    rcases hcm : commitAlu st.cycle p.advance.pc st.regs p.advance.alu with ⟨regs1, bs⟩
    refine ⟨rfl, rfl, rfl, rfl, rfl, rfl, rfl, bs, rfl, ?_⟩
    intro b hb
    exact commitAlu_no_branch _ _ _ _ b (by rw [hcm]; exact hb)

/-- Fields `_stage_mem` leaves untouched on success, and the shape of its
log entries. -/
theorem stageMEM_spec (st st' : CPUState) (h : stageMEM st = .ok st') :
    st'.pc = st.pc ∧ st'.imem = st.imem ∧ st'.cycle = st.cycle ∧
      st'.regs = st.regs ∧ st'.slots.sID = st.slots.sID ∧
      st'.slots.sEX = st.slots.sEX ∧
      ∃ bs, st'.behaviors = st.behaviors ++ bs ∧
        ∀ b ∈ bs, isBranchB b = false := by
  unfold stageMEM at h
  cases hm : st.slots.sMEM with
  | none =>
    rw [hm] at h
    cases h
    exact ⟨rfl, rfl, rfl, rfl, rfl, rfl, [], by simp, by intro b hb; simp at hb⟩
  | some p =>
    rw [hm] at h
    dsimp only at h
    rcases hex : execInstr { st with slots := { st.slots with sMEM := some p.advance } } p.advance
      with ⟨p2, bs, err⟩
    rw [hex] at h
    cases err with
    | some e => cases h
    | none =>
      dsimp only at h
      rcases hcm : commitMem st.cycle p2.pc st.dmem p2.mem with ⟨d1, bs2⟩
      rw [hcm] at h
      cases h
      refine ⟨rfl, rfl, rfl, rfl, rfl, rfl, bs ++ bs2, by simp, ?_⟩
      intro b hb
      rcases List.mem_append.mp hb with hb | hb
      · have := (execInstr_spec { st with slots := { st.slots with sMEM := some p.advance } } p.advance).2.2
        rw [hex] at this
        exact fwd_not_branch b (this b hb)
      · exact commitMem_no_branch _ _ _ _ b (by rw [hcm]; exact hb)

/-- Fields `_stage_ex` leaves untouched on success, and the shape of its
log entries. -/
theorem stageEX_spec (st st' : CPUState) (h : stageEX st = .ok st') :
    st'.pc = st.pc ∧ st'.imem = st.imem ∧ st'.cycle = st.cycle ∧
      st'.regs = st.regs ∧ st'.dmem = st.dmem ∧
      st'.slots.sID = st.slots.sID ∧ st'.slots.sWB = st.slots.sWB ∧
      ∃ bs, st'.behaviors = st.behaviors ++ bs ∧
        ∀ b ∈ bs, isBranchB b = false := by
  unfold stageEX at h
  cases hm : st.slots.sEX with
  | none =>
    rw [hm] at h
    cases h
    exact ⟨rfl, rfl, rfl, rfl, rfl, rfl, rfl, [], by simp, by intro b hb; simp at hb⟩
  | some p =>
    rw [hm] at h
    dsimp only at h
    rcases hex : execInstr { st with slots := { st.slots with sEX := some p.advance } } p.advance
      with ⟨p2, bs, err⟩
    rw [hex] at h
    cases err with
    | some e => cases h
    | none =>
      cases h
      refine ⟨rfl, rfl, rfl, rfl, rfl, rfl, rfl, bs, rfl, ?_⟩
      intro b hb
      have := (execInstr_spec { st with slots := { st.slots with sEX := some p.advance } } p.advance).2.2
      rw [hex] at this
      exact fwd_not_branch b (this b hb)

theorem stageID_spec (st st' : CPUState) (stalled : Bool)
    (h : stageID st = .ok (st', stalled)) :
    st'.pc = st.pc ∧ st'.imem = st.imem ∧ st'.cycle = st.cycle ∧
      st'.regs = st.regs ∧ st'.dmem = st.dmem ∧
      st'.slots.sMEM = st.slots.sMEM ∧ st'.slots.sWB = st.slots.sWB ∧
      (∃ bs, st'.behaviors = st.behaviors ++ bs ∧
        ∀ b ∈ bs, isBranchB b = false) ∧
      (stalled = true → st'.slots.sEX = none ∧
        ∃ p q, st.slots.sID = some p ∧ st'.slots.sID = some q ∧
          q.pc = p.pc ∧ q.instr = p.instr) ∧
      (stalled = false → st'.slots.sEX = st'.slots.sID ∧
        (st.slots.sID = none → st'.slots.sID = none) ∧
        ∀ p, st.slots.sID = some p → ∃ q, st'.slots.sID = some q ∧
          q.pc = p.pc ∧ q.instr = p.instr) := by
  unfold stageID at h
  cases hid : st.slots.sID with
  | none =>
    rw [hid] at h
    cases h
    refine ⟨rfl, rfl, rfl, rfl, rfl, rfl, rfl, ⟨[], by simp, ?_⟩, ?_, ?_⟩
    · intro b hb; simp at hb
    · intro hc; exact absurd hc (by decide)
    · intro _
      exact ⟨hid.symm, fun _ => hid, fun q hq => by cases hq⟩
  | some p =>
    rw [hid] at h
    dsimp only at h
    have hp1pc : (if (p.stage != Stage.ID) = true then p.advance else p).pc = p.pc := by
      split <;> rfl
    have hp1instr :
        (if (p.stage != Stage.ID) = true then p.advance else p).instr = p.instr := by
      split <;> rfl
    set p1 := if (p.stage != Stage.ID) = true then p.advance else p with hp1
    cases hcs : checkStall { st with slots := { st.slots with sID := some p1 } }.slots p1 with
    | some e =>
      rw [hcs] at h
      cases h
      refine ⟨rfl, rfl, rfl, rfl, rfl, rfl, rfl,
        ⟨[.stallB st.cycle p1.pc e], rfl, ?_⟩, ?_, ?_⟩
      · intro b hb
        rcases List.mem_singleton.mp hb with rfl
        rfl
      · intro _
        exact ⟨rfl, p, p1, rfl, rfl, hp1pc, hp1instr⟩
      · intro hc; exact absurd hc (by decide)
    | none =>
      rw [hcs] at h
      rcases hex : execInstr { st with slots := { st.slots with sID := some p1 } } p1
        with ⟨p2, bs, err⟩
      rw [hex] at h
      have hpres := execInstr_spec { st with slots := { st.slots with sID := some p1 } } p1
      rw [hex] at hpres
      cases err with
      | some e =>
        cases e with
        | stallE se =>
          dsimp only at h
          cases h
          refine ⟨rfl, rfl, rfl, rfl, rfl, rfl, rfl,
            ⟨bs ++ [.stallB st.cycle p2.pc se], by simp, ?_⟩, ?_, ?_⟩
          · intro b hb
            rcases List.mem_append.mp hb with hb | hb
            · exact fwd_not_branch b (hpres.2.2 b hb)
            · rcases List.mem_singleton.mp hb with rfl
              rfl
          · intro _
            exact ⟨rfl, p, p2, rfl, rfl, hpres.1.trans hp1pc, hpres.2.1.trans hp1instr⟩
          · intro hc; exact absurd hc (by decide)
        | typeErrorWriteMem => cases h
        | typeErrorJalPc => cases h
        | typeErrorDisasm => cases h
        | attrErrorJalPc => cases h
        | attrErrorCurpkt => cases h
        | keyErrorMemAddr => cases h
      | none =>
        cases h
        refine ⟨rfl, rfl, rfl, rfl, rfl, rfl, rfl,
          ⟨bs, rfl, fun b hb => fwd_not_branch b (hpres.2.2 b hb)⟩, ?_, ?_⟩
        · intro hc; exact absurd hc (by decide)
        · intro _
          refine ⟨rfl, ?_, ?_⟩
          · intro hn; cases hn
          · intro q hq
            injection hq with hpq
            subst hpq
            exact ⟨p2, rfl, hpres.1.trans hp1pc, hpres.2.1.trans hp1instr⟩

theorem stageIF_true (st : CPUState) : stageIF st true = st := rfl

theorem stageIF_false_fields (st : CPUState) :
    (stageIF st false).slots.sEX = st.slots.sEX ∧
    (stageIF st false).slots.sMEM = st.slots.sMEM ∧
    (stageIF st false).slots.sWB = st.slots.sWB ∧
    (stageIF st false).regs = st.regs ∧
    (stageIF st false).dmem = st.dmem ∧
    (stageIF st false).imem = st.imem ∧
    (stageIF st false).cycle = st.cycle := by
  unfold stageIF
  cases fetchIdx st.pc st.imem.length <;>
    exact ⟨rfl, rfl, rfl, rfl, rfl, rfl, rfl⟩

/-- Decomposition of one successful `stepCore` into its stage pipeline:
there is an intermediate state `st4` (after `_stage_id`) from which
`_stage_if` produces the final state; `st4` keeps the initial `pc` and
instruction memory, its behavior log contains no `Branch` record, and the
`_stage_id` slot outcome is as in `stageID_spec`. -/
theorem stepCore_anatomy (st st' : CPUState) (stalled : Bool)
    (h : stepCore st = .ok (st', stalled)) :
    ∃ st4, st' = stageIF st4 stalled ∧
      st4.pc = st.pc ∧ st4.imem = st.imem ∧
      (∀ b ∈ st4.behaviors, isBranchB b = false) ∧
      (stalled = true → st4.slots.sEX = none ∧
        ∃ p q, st.slots.sID = some p ∧ st4.slots.sID = some q ∧
          q.pc = p.pc ∧ q.instr = p.instr) ∧
      (stalled = false → st4.slots.sEX = st4.slots.sID ∧
        (st.slots.sID = none → st4.slots.sID = none) ∧
        ∀ p, st.slots.sID = some p → ∃ q, st4.slots.sID = some q ∧
          q.pc = p.pc ∧ q.instr = p.instr) := by
  unfold stepCore at h
  dsimp only at h
  cases hm : stageMEM (stageWB { st with cycle := st.cycle + 1, behaviors := [] }) with
  | error e => rw [hm] at h; cases h
  | ok st2 =>
    rw [hm] at h
    dsimp only at h
    cases he : stageEX st2 with
    | error e => rw [he] at h; cases h
    | ok st3 =>
      rw [he] at h
      dsimp only at h
      cases hi : stageID st3 with
      | error e => rw [hi] at h; cases h
      | ok pr =>
        obtain ⟨st4, stalled'⟩ := pr
        rw [hi] at h
        dsimp only at h
        cases h
        have hWB := stageWB_spec { st with cycle := st.cycle + 1, behaviors := [] }
        have hMEM := stageMEM_spec _ _ hm
        have hEX := stageEX_spec _ _ he
        have hID := stageID_spec _ _ _ hi
        obtain ⟨wpc, wim, wcy, wdm, wid, wex, wmm, bs1, hb1, hf1⟩ := hWB
        obtain ⟨mpc, mim, mcy, mrg, mid, mex, bs2, hb2, hf2⟩ := hMEM
        obtain ⟨epc, eim, ecy, erg, edm, eid, ewb, bs3, hb3, hf3⟩ := hEX
        obtain ⟨ipc, iim, icy, irg, idm, imm, iwb, ⟨bs4, hb4, hf4⟩, histall, hinost⟩ := hID
        have hsid3 : st3.slots.sID = st.slots.sID := by
          rw [eid, mid, wid]
        refine ⟨st4, rfl, ?_, ?_, ?_, ?_, ?_⟩
        · rw [ipc, epc, mpc, wpc]
        · rw [iim, eim, mim, wim]
        · intro b hb
          rw [hb4] at hb
          rcases List.mem_append.mp hb with hb | hb
          · rw [hb3] at hb
            rcases List.mem_append.mp hb with hb | hb
            · rw [hb2] at hb
              rcases List.mem_append.mp hb with hb | hb
              · rw [hb1] at hb
                rcases List.mem_append.mp hb with hb | hb
                · simp at hb
                · exact hf1 b hb
              · exact hf2 b hb
            · exact hf3 b hb
          · exact hf4 b hb
        · intro hs
          obtain ⟨hexn, p, q, hp, hq, hqpc, hqin⟩ := histall hs
          exact ⟨hexn, p, q, hsid3 ▸ hp, hq, hqpc, hqin⟩
        · intro hs
          obtain ⟨hexid, hnone, hsome⟩ := hinost hs
          refine ⟨hexid, ?_, ?_⟩
          · intro hn
            exact hnone (hsid3.trans hn)
          · intro p hp
            exact hsome p (hsid3.trans hp)

/-- C6: in every successfully completed cycle exactly one of
{stalled, advanced-ID} holds; when ID stalls, the EX slot ends the cycle
empty, the pc is unchanged, and the ID slot still holds a packet with the
same pc and instruction for another attempt; when it does not stall, the
packet that was in ID (if any) has moved to the EX slot. -/
theorem C6_stall_dichotomy (st st' : CPUState) (stalled : Bool)
    (h : stepCore st = .ok (st', stalled)) :
    ((stalled = true ∧ st'.slots.sEX = none ∧ st'.pc = st.pc ∧
        ∃ p q, st.slots.sID = some p ∧ st'.slots.sID = some q ∧
          q.pc = p.pc ∧ q.instr = p.instr) ∨
      (stalled = false ∧ (st.slots.sID = none → st'.slots.sEX = none) ∧
        ∀ p, st.slots.sID = some p → ∃ q, st'.slots.sEX = some q ∧
          q.pc = p.pc ∧ q.instr = p.instr)) ∧
    ¬(stalled = true ∧ stalled = false) := by
  obtain ⟨st4, hif, hpc, him, hbf, hstall, hnost⟩ := stepCore_anatomy st st' stalled h
  constructor
  · cases stalled with
    | true =>
      obtain ⟨hexn, p, q, hp, hq, hqpc, hqin⟩ := hstall rfl
      rw [hif, stageIF_true]
      exact Or.inl ⟨rfl, hexn, hpc, p, q, hp, hq, hqpc, hqin⟩
    | false =>
      obtain ⟨hexid, hnone, hsome⟩ := hnost rfl
      have hfex := (stageIF_false_fields st4).1
      refine Or.inr ⟨rfl, ?_, ?_⟩
      · intro hn
        rw [hif, hfex, hexid]
        exact hnone hn
      · intro p hp
        obtain ⟨q, hq, hqpc, hqin⟩ := hsome p hp
        refine ⟨q, ?_, hqpc, hqin⟩
        rw [hif, hfex, hexid]
        exact hq
  · rintro ⟨h1, h2⟩
    rw [h1] at h2
    cases h2

/-- Witness state: the sentinel program's run provides a concrete successful
cycle for the dichotomy and redirect theorems. -/
def s1Halt : CPUState := (stepN (initState progHalt) 1).toOption.getD (initState [])

theorem C6_stall_dichotomy_w :
    ∃ st' stalled, stepCore s1Halt = .ok (st', stalled) ∧
      (((stalled = true ∧ st'.slots.sEX = none ∧ st'.pc = s1Halt.pc ∧
          ∃ p q, s1Halt.slots.sID = some p ∧ st'.slots.sID = some q ∧
            q.pc = p.pc ∧ q.instr = p.instr) ∨
        (stalled = false ∧ (s1Halt.slots.sID = none → st'.slots.sEX = none) ∧
          ∀ p, s1Halt.slots.sID = some p → ∃ q, st'.slots.sEX = some q ∧
            q.pc = p.pc ∧ q.instr = p.instr)) ∧
      ¬(stalled = true ∧ stalled = false)) :=
  ⟨_, _, rfl, C6_stall_dichotomy s1Halt _ _ rfl⟩

/-- C10: a `Branch(taken=true)` behavior appears in a completed cycle's log
iff the packet that left ID for EX resolved a taken branch
(`npc ≠ pc + 4` under Python `==`) and the index of the word fetched that
cycle is inside `imem`; moreover on a taken branch whose same-cycle fetch is
out of range the pc is still redirected to the branch target while the ID
slot empties and no `Branch` is logged. -/
theorem C10_branch_log_iff (st st' : CPUState) (stalled : Bool)
    (h : stepCore st = .ok (st', stalled)) :
    ((∃ c pc t, Behavior.branch c pc t true ∈ st'.behaviors) ↔
      (∃ p, st'.slots.sEX = some p ∧ PcV.eqb p.npc (p.pc.addInt 4) = false ∧
        (fetchIdx st.pc st.imem.length).isSome = true)) ∧
    (∀ p, st'.slots.sEX = some p → PcV.eqb p.npc (p.pc.addInt 4) = false →
      fetchIdx st.pc st.imem.length = none →
      st'.pc = p.npc ∧ st'.slots.sID = none) := by
  obtain ⟨st4, hif, hpc, him, hbf, hstall, hnost⟩ := stepCore_anatomy st st' stalled h
  subst hif
  cases stalled with
  | true =>
    rw [stageIF_true]
    obtain ⟨hexn, _, _, _, _, _, _⟩ := hstall rfl
    constructor
    · constructor
      · rintro ⟨c, pc, t, hmem⟩
        exact absurd (hbf _ hmem) (by simp [isBranchB])
      · rintro ⟨p, hp, _⟩
        rw [hexn] at hp
        cases hp
    · intro p hp
      rw [hexn] at hp
      cases hp
  | false =>
    obtain ⟨hexid, _, _⟩ := hnost rfl
    have hfi : fetchIdx st4.pc st4.imem.length = fetchIdx st.pc st.imem.length := by
      rw [hpc, him]
    unfold stageIF
    simp only [Bool.false_eq_true, if_false]
    cases hf : fetchIdx st.pc st.imem.length with
    | some idx =>
      rw [hfi, hf]
      dsimp only
      cases hsid : st4.slots.sID with
      | none =>
        dsimp only
        constructor
        · constructor
          · rintro ⟨c, pc, t, hmem⟩
            simp only [List.append_nil] at hmem
            exact absurd (hbf _ hmem) (by simp [isBranchB])
          · rintro ⟨p, hp, _⟩
            rw [hexid, hsid] at hp
            cases hp
        · intro p hp
          rw [hexid, hsid] at hp
          cases hp
      | some q =>
        dsimp only
        constructor
        · constructor
          · rintro ⟨c, pc, t, hmem⟩
            rcases List.mem_append.mp hmem with hmem | hmem
            · exact absurd (hbf _ hmem) (by simp [isBranchB])
            · refine ⟨q, ?_, ?_, ?_⟩
              · rw [hexid, hsid]
              · by_cases htk : PcV.eqb q.npc (q.pc.addInt 4) = false
                · exact htk
                · rw [Bool.not_eq_false] at htk
                  rw [htk] at hmem
                  simp at hmem
              · rfl
          · rintro ⟨p, hp, hne, _⟩
            rw [hexid, hsid] at hp
            injection hp with hp
            subst hp
            rw [hne]
            exact ⟨st4.cycle, q.pc, q.npc, by simp⟩
        · intro p hp hne hnone
          cases hnone
    | none =>
      rw [hfi, hf]
      dsimp only
      constructor
      · constructor
        · rintro ⟨c, pc, t, hmem⟩
          exact absurd (hbf _ hmem) (by simp [isBranchB])
        · rintro ⟨p, hp, _, hsome⟩
          simp at hsome
      · intro p hp hne _
        rw [hexid] at hp
        rw [hp]
        dsimp only
        rw [hne]
        exact ⟨rfl, rfl⟩

theorem C10_branch_log_iff_w :
    ∃ st' stalled, stepCore s1Halt = .ok (st', stalled) ∧
      (((∃ c pc t, Behavior.branch c pc t true ∈ st'.behaviors) ↔
        (∃ p, st'.slots.sEX = some p ∧ PcV.eqb p.npc (p.pc.addInt 4) = false ∧
          (fetchIdx s1Halt.pc s1Halt.imem.length).isSome = true)) ∧
      (∀ p, st'.slots.sEX = some p → PcV.eqb p.npc (p.pc.addInt 4) = false →
        fetchIdx s1Halt.pc s1Halt.imem.length = none →
        st'.pc = p.npc ∧ st'.slots.sID = none)) :=
  ⟨_, _, rfl, C10_branch_log_iff s1Halt _ _ rfl⟩

/-- C1 (amended): when the packet leaving ID for EX in a completed,
non-stalled cycle resolved a taken branch (`npc ≠ pc + 4`), the pc at the
end of that cycle equals the branch target `npc` — so the *next* cycle's
fetch is at the branch target — while the fetch performed in that same
cycle still used the pre-redirect pc: any packet installed in ID during the
cycle carries the old pc, enters the pipeline, and (absent a crash) commits
like any other instruction.  There is no squash. -/
theorem C1_redirect_applies_next_cycle (st st' : CPUState) (p : Packet)
    (h : stepCore st = .ok (st', false))
    (hp : st'.slots.sEX = some p)
    (ht : PcV.eqb p.npc (p.pc.addInt 4) = false) :
    st'.pc = p.npc ∧ ∀ q, st'.slots.sID = some q → q.pc = st.pc := by
  obtain ⟨st4, hif, hpc, him, _, _, hnost⟩ := stepCore_anatomy st st' false h
  obtain ⟨hexid, _, _⟩ := hnost rfl
  subst hif
  have hfex := (stageIF_false_fields st4).1
  rw [hfex, hexid] at hp
  unfold stageIF
  simp only [Bool.false_eq_true, if_false]
  rw [hp]
  dsimp only
  rw [ht]
  cases hf : fetchIdx st4.pc st4.imem.length with
  | some idx =>
    dsimp only
    refine ⟨rfl, ?_⟩
    intro q hq
    injection hq with hq
    rw [← hq, hpc]
    rfl
  | none =>
    dsimp only
    exact ⟨rfl, fun q hq => by cases hq⟩

/-- Intermediate states of the scenario-4 run used as concrete witnesses:
the state after three steps (the branch is in ID) and the result of the
branch-resolving cycle. -/
def s3Branch : CPUState := (stepN (initState progBranch) 3).toOption.getD (initState [])

/-- The state after the branch-resolving cycle of the scenario-4 run. -/
def s4Branch : CPUState :=
  ((stepCore s3Branch).toOption.map Prod.fst).getD (initState [])

/-- The beq packet that left ID during cycle 4 of the scenario-4 run. -/
def beqPkt : Packet := s4Branch.slots.sEX.getD (Packet.fresh (.int 0) (decode 0))

theorem C1_redirect_applies_next_cycle_w :
    s4Branch.pc = beqPkt.npc ∧
      ∀ q, s4Branch.slots.sID = some q → q.pc = s3Branch.pc :=
  C1_redirect_applies_next_cycle s3Branch s4Branch beqPkt rfl rfl rfl

/-- C1 (counterexample): in the scenario-4 run the branch in ID at cycle 4
is taken towards `0x3010` and the pc is redirected, but the fetch of cycle
4 itself still installed the wrong-path instruction at `0x300C`
(`ori $3,$0,0xFF`) into ID, and by the end of step 8 that instruction has
been committed: `$3 = 0xFF`, contradicting both "the fetch target of that
same cycle is set to that packet's npc" and "no wrong-path instruction is
ever committed" (the specification expects `$3 = 0`). -/
theorem C1_wrong_path_instruction_commits :
    (stepN (initState progBranch) 4).toOption.map CPUState.behaviors =
      some [.fwd 4 (.int 0x3008) 1 1 .WB .ID, .fwd 4 (.int 0x3008) 2 1 .EX .ID,
            .branch 4 (.int 0x3008) (.int 0x3010) true] ∧
    (stepN (initState progBranch) 4).toOption.bind
        (fun s => s.slots.sID.map Packet.pc) = some (.int 0x300C) ∧
    pcAfter progBranch 4 = some (.int 0x3010) ∧
    regsAfter progBranch 8 = some ([0, 1, 1, 0xFF] ++ List.replicate 28 0) ∧
    (0xFF : Nat) ≠ 0 := by
  refine ⟨rfl, rfl, rfl, ?_, by decide⟩
  rfl

/-! ### C8 — what survives of the pc invariant: alignment in jr-free runs -/

theorem nat_land_mask_dvd4 (a : Nat) : (4:Nat) ∣ (a &&& 0xF0000000) := by
  have h3 : (a &&& 0xF0000000) &&& 3 = (a &&& 0xF0000000) % 4 := by
    have := Nat.and_pow_two_sub_one_eq_mod (a &&& 0xF0000000) 2
    norm_num at this
    exact this
  have h0 : (a &&& 0xF0000000) &&& 3 = 0 := by
    rw [Nat.land_assoc]
    rw [show ((4026531840 : Nat) &&& 3) = 0 from rfl]
    simp
  omega

theorem nat_lor_dvd4 (x y : Nat) (hx : 4 ∣ x) (hy : 4 ∣ y) : (4:Nat) ∣ (x ||| y) := by
  have hb : ∀ z : Nat, 4 ∣ z → z &&& 3 = 0 := by
    intro z hz
    have := Nat.and_pow_two_sub_one_eq_mod z 2
    norm_num at this
    omega
  have h3 : (x ||| y) &&& 3 = (x ||| y) % 4 := by
    have := Nat.and_pow_two_sub_one_eq_mod (x ||| y) 2
    norm_num at this
    exact this
  have h0 : (x ||| y) &&& 3 = 0 := by
    rw [Nat.and_distrib_right, hb x hx, hb y hy]
    rfl
  omega

theorem int_land_mask_dvd4 (x : Int) (hx : 0 ≤ x) :
    (4:Int) ∣ Int.land x 0xF0000000 := by
  obtain ⟨a, rfl⟩ := Int.eq_ofNat_of_zero_le hx
  show (4:Int) ∣ Int.land (Int.ofNat a) (Int.ofNat 0xF0000000)
  rw [show Int.land (Int.ofNat a) (Int.ofNat 0xF0000000) = Int.ofNat (a &&& 0xF0000000) from rfl,
    show Int.ofNat (a &&& 0xF0000000) = ((a &&& 0xF0000000 : Nat) : Int) from rfl]
  exact_mod_cast nat_land_mask_dvd4 a

theorem int_land_mask_nonneg (x : Int) (hx : 0 ≤ x) :
    0 ≤ Int.land x 0xF0000000 := by
  obtain ⟨a, rfl⟩ := Int.eq_ofNat_of_zero_le hx
  show 0 ≤ Int.land (Int.ofNat a) (Int.ofNat 0xF0000000)
  rw [show Int.land (Int.ofNat a) (Int.ofNat 0xF0000000) = Int.ofNat (a &&& 0xF0000000) from rfl]
  exact Int.ofNat_nonneg _

theorem int_lor_dvd4 (x y : Int) (hx0 : 0 ≤ x) (hy0 : 0 ≤ y) (hx : 4 ∣ x) (hy : 4 ∣ y) :
    (4:Int) ∣ Int.lor x y := by
  obtain ⟨a, rfl⟩ := Int.eq_ofNat_of_zero_le hx0
  obtain ⟨b, rfl⟩ := Int.eq_ofNat_of_zero_le hy0
  show (4:Int) ∣ Int.lor (Int.ofNat a) (Int.ofNat b)
  rw [show Int.lor (Int.ofNat a) (Int.ofNat b) = Int.ofNat (a ||| b) from rfl,
    show Int.ofNat (a ||| b) = ((a ||| b : Nat) : Int) from rfl]
  exact_mod_cast nat_lor_dvd4 a b (by exact_mod_cast hx) (by exact_mod_cast hy)

theorem shl2_dvd4 (n : Nat) : (4:Nat) ∣ (n <<< 2) := by
  rw [Nat.shiftLeft_eq]
  exact Dvd.intro n (by ring)

/-- A program whose decoded instructions never include `jr` (the only
instruction that writes a `Word` into `npc`). -/
def jrFree (imem : List Nat) : Prop := ∀ c ∈ imem, decodeKind c ≠ Kind.jr

/-- Inductive invariant on an in-flight packet in a jr-free run: its pc is
a plain aligned int no smaller than the code base, its npc is a plain
aligned int, and it is not a `jr`. -/
def PacketInv (p : Packet) : Prop :=
  (∃ j, p.pc = PcV.int j ∧ (4:Int) ∣ j ∧ 0x3000 ≤ j) ∧
  (∃ k, p.npc = PcV.int k ∧ (4:Int) ∣ k) ∧
  p.instr.kind ≠ Kind.jr

/-- `PacketInv` lifted to a pipeline slot. -/
def OptInv : Option Packet → Prop
  | none => True
  | some p => PacketInv p

/-- Inductive invariant on the CPU state in a jr-free run: the pc is a
plain aligned int and every slot satisfies `PacketInv`. -/
def StateInv (st : CPUState) : Prop :=
  (∃ i, st.pc = PcV.int i ∧ (4:Int) ∣ i) ∧
  OptInv st.slots.sIF ∧ OptInv st.slots.sID ∧ OptInv st.slots.sEX ∧
  OptInv st.slots.sMEM ∧ OptInv st.slots.sWB

theorem packetInv_of_fields (p q : Packet) (hpc : q.pc = p.pc)
    (hnpc : q.npc = p.npc) (hin : q.instr = p.instr) (h : PacketInv p) :
    PacketInv q := by
  obtain ⟨⟨j, hj, hj4, hj0⟩, ⟨k, hk, hk4⟩, hkd⟩ := h
  exact ⟨⟨j, hpc ▸ hj, hj4, hj0⟩, ⟨k, hnpc ▸ hk, hk4⟩, by rw [hin]; exact hkd⟩

theorem packetInv_advance (p : Packet) (h : PacketInv p) : PacketInv p.advance :=
  packetInv_of_fields p p.advance rfl rfl rfl h

/-- Every execute method preserves the jr-free packet invariant (in
particular, `beq` and `jal` always compute aligned plain-int next pcs). -/
theorem execInstr_inv (st : CPUState) (p : Packet) (h : PacketInv p) :
    PacketInv (execInstr st p).1 := by
  obtain ⟨⟨j, hj, hj4, hj0⟩, ⟨k, hk, hk4⟩, hkd⟩ := h
  unfold execInstr
  cases hkind : p.instr.kind
  case jr => exact absurd hkind hkd
  case nop => exact ⟨⟨j, hj, hj4, hj0⟩, ⟨k, hk, hk4⟩, by rw [hkind]; simp⟩
  case add =>
    dsimp only
    have hres : PacketInv p := ⟨⟨j, hj, hj4, hj0⟩, ⟨k, hk, hk4⟩, hkd⟩
    split
    · exact hres
    split
    · exact hres
    split
    · exact hres
    split
    · exact hres
    rename_i p1 hw
    obtain ⟨h1, h2, h3⟩ := writeReg_ok_pres _ _ _ _ _ _ hw
    exact packetInv_of_fields p p1 h1 h3 h2 hres
  case sub =>
    dsimp only
    have hres : PacketInv p := ⟨⟨j, hj, hj4, hj0⟩, ⟨k, hk, hk4⟩, hkd⟩
    split
    · exact hres
    split
    · exact hres
    split
    · exact hres
    split
    · exact hres
    rename_i p1 hw
    obtain ⟨h1, h2, h3⟩ := writeReg_ok_pres _ _ _ _ _ _ hw
    exact packetInv_of_fields p p1 h1 h3 h2 hres
  case lui =>
    dsimp only
    have hres : PacketInv p := ⟨⟨j, hj, hj4, hj0⟩, ⟨k, hk, hk4⟩, hkd⟩
    split
    · exact hres
    split
    · exact hres
    rename_i p1 hw
    obtain ⟨h1, h2, h3⟩ := writeReg_ok_pres _ _ _ _ _ _ hw
    exact packetInv_of_fields p p1 h1 h3 h2 hres
  case ori =>
    dsimp only
    have hres : PacketInv p := ⟨⟨j, hj, hj4, hj0⟩, ⟨k, hk, hk4⟩, hkd⟩
    split
    · exact hres
    split
    · exact hres
    rename_i v1 ob1 hr1
    split
    · exact hres
    rename_i p1 hw
    obtain ⟨h1, h2, h3⟩ := writeReg_ok_pres _ _ _ _ _ _ hw
    exact packetInv_of_fields p p1 h1 h3 h2 hres
  case lw =>
    dsimp only
    have hres : PacketInv p := ⟨⟨j, hj, hj4, hj0⟩, ⟨k, hk, hk4⟩, hkd⟩
    split
    · split
      · exact hres
      rename_i v1 ob1 hr1
      exact packetInv_of_fields p _ rfl rfl rfl hres
    split
    · split
      · exact hres
      rename_i addr hma
      split
      · exact hres
      rename_i p1 hw
      obtain ⟨h1, h2, h3⟩ := writeReg_ok_pres _ _ _ _ _ _ hw
      exact packetInv_of_fields p p1 h1 h3 h2 hres
    exact hres
  case sw =>
    dsimp only
    have hres : PacketInv p := ⟨⟨j, hj, hj4, hj0⟩, ⟨k, hk, hk4⟩, hkd⟩
    split
    · split
      · exact hres
      rename_i v1 ob1 hr1
      exact packetInv_of_fields p _ rfl rfl rfl hres
    split
    · split
      · exact hres
      rename_i addr hma
      split
      · exact hres
      rename_i v1 ob1 hr1
      exact hres
    exact hres
  case beq =>
    dsimp only
    have hres : PacketInv p := ⟨⟨j, hj, hj4, hj0⟩, ⟨k, hk, hk4⟩, hkd⟩
    split
    · exact hres
    split
    · exact hres
    rename_i v1 ob1 hr1
    split
    · exact hres
    rename_i v2 ob2 hr2
    split
    · refine ⟨⟨j, hj, hj4, hj0⟩, ⟨j + 4 + p.instr.imm16s * 4, ?_, ?_⟩,
        by rw [hkind]; simp⟩
      · show ((p.pc.addInt 4).addInt (p.instr.imm16s * 4)) = _
        rw [hj]
        rfl
      · omega
    · exact hres
  case jal =>
    dsimp only
    have hres : PacketInv p := ⟨⟨j, hj, hj4, hj0⟩, ⟨k, hk, hk4⟩, hkd⟩
    split
    · split
      · rename_i w hpcw
        rw [hj] at hpcw
        cases hpcw
      rename_i i hpci
      rw [hj] at hpci
      injection hpci with hji
      subst hji
      have htgt : (4:Int) ∣ Int.lor ((p.instr.imm26 <<< 2 : Nat) : Int)
          (Int.land (j + 4) 0xF0000000) := by
        refine int_lor_dvd4 _ _ (Int.ofNat_nonneg _) ?_ ?_ ?_
        · exact int_land_mask_nonneg _ (by omega)
        · exact_mod_cast shl2_dvd4 p.instr.imm26
        · exact int_land_mask_dvd4 _ (by omega)
      split
      · refine ⟨⟨j, hj, hj4, hj0⟩, ⟨_, rfl, htgt⟩, by rw [hkind]; simp⟩
      rename_i p2 hw
      obtain ⟨h1, h2, h3⟩ := writeReg_ok_pres _ _ _ _ _ _ hw
      refine ⟨⟨j, by rw [h1]; exact hj, hj4, hj0⟩, ⟨_, by rw [h3], htgt⟩, ?_⟩
      rw [h2]
      rw [hkind]
      simp
    exact hres

theorem stageWB_sinv (st : CPUState) (h : StateInv st) : StateInv (stageWB st) := by
  obtain ⟨hpc, hIF, hID, hEX, hMEM, hWB⟩ := h
  unfold stageWB
  cases hwb : st.slots.sWB with
  | none =>
    dsimp only
    refine ⟨hpc, hIF, hID, hEX, hMEM, ?_⟩
    show OptInv st.slots.sWB
    exact hWB
  | some p =>
    dsimp only
    rcases hcm : commitAlu st.cycle p.advance.pc st.regs p.advance.alu with ⟨regs1, bs⟩
    rw [hwb] at hWB
    exact ⟨hpc, hIF, hID, hEX, hMEM, packetInv_advance p hWB⟩

theorem stageMEM_sinv (st st' : CPUState) (h : StateInv st)
    (hm : stageMEM st = .ok st') : StateInv st' := by
  obtain ⟨hpc, hIF, hID, hEX, hMEM, hWB⟩ := h
  unfold stageMEM at hm
  cases hmem : st.slots.sMEM with
  | none =>
    rw [hmem] at hm
    cases hm
    refine ⟨hpc, hIF, hID, hEX, ?_, trivial⟩
    show OptInv st.slots.sMEM
    exact hMEM
  | some p =>
    rw [hmem] at hm
    dsimp only at hm
    rcases hex : execInstr { st with slots := { st.slots with sMEM := some p.advance } } p.advance
      with ⟨p2, bs, err⟩
    rw [hex] at hm
    cases err with
    | some e => cases hm
    | none =>
      dsimp only at hm
      rcases hcm : commitMem st.cycle p2.pc st.dmem p2.mem with ⟨d1, bs2⟩
      rw [hcm] at hm
      cases hm
      rw [hmem] at hMEM
      have hp2 : PacketInv p2 := by
        have := execInstr_inv { st with slots := { st.slots with sMEM := some p.advance } }
          p.advance (packetInv_advance p hMEM)
        rw [hex] at this
        exact this
      exact ⟨hpc, hIF, hID, hEX, hp2, hp2⟩

theorem stageEX_sinv (st st' : CPUState) (h : StateInv st)
    (he : stageEX st = .ok st') : StateInv st' := by
  obtain ⟨hpc, hIF, hID, hEX, hMEM, hWB⟩ := h
  unfold stageEX at he
  cases hex0 : st.slots.sEX with
  | none =>
    rw [hex0] at he
    cases he
    refine ⟨hpc, hIF, hID, ?_, trivial, hWB⟩
    show OptInv st.slots.sEX
    exact hEX
  | some p =>
    rw [hex0] at he
    dsimp only at he
    rcases hex : execInstr { st with slots := { st.slots with sEX := some p.advance } } p.advance
      with ⟨p2, bs, err⟩
    rw [hex] at he
    cases err with
    | some e => cases he
    | none =>
      cases he
      rw [hex0] at hEX
      have hp2 : PacketInv p2 := by
        have := execInstr_inv { st with slots := { st.slots with sEX := some p.advance } }
          p.advance (packetInv_advance p hEX)
        rw [hex] at this
        exact this
      exact ⟨hpc, hIF, hID, hp2, hp2, hWB⟩

theorem stageID_sinv (st st' : CPUState) (stalled : Bool) (h : StateInv st)
    (hi : stageID st = .ok (st', stalled)) : StateInv st' := by
  obtain ⟨hpc, hIF, hID, hEX, hMEM, hWB⟩ := h
  unfold stageID at hi
  cases hid : st.slots.sID with
  | none =>
    rw [hid] at hi
    cases hi
    refine ⟨hpc, hIF, ?_, trivial, hMEM, hWB⟩
    show OptInv st.slots.sID
    exact hID
  | some p =>
    rw [hid] at hi
    dsimp only at hi
    rw [hid] at hID
    have hp1 : PacketInv (if (p.stage != Stage.ID) = true then p.advance else p) := by
      split
      · exact packetInv_advance p hID
      · exact hID
    set p1 := if (p.stage != Stage.ID) = true then p.advance else p with hp1eq
    cases hcs : checkStall { st with slots := { st.slots with sID := some p1 } }.slots p1 with
    | some e =>
      rw [hcs] at hi
      cases hi
      exact ⟨hpc, hIF, hp1, trivial, hMEM, hWB⟩
    | none =>
      rw [hcs] at hi
      rcases hex : execInstr { st with slots := { st.slots with sID := some p1 } } p1
        with ⟨p2, bs, err⟩
      rw [hex] at hi
      have hp2 : PacketInv p2 := by
        have := execInstr_inv { st with slots := { st.slots with sID := some p1 } } p1 hp1
        rw [hex] at this
        exact this
      cases err with
      | some e =>
        cases e with
        | stallE se =>
          dsimp only at hi
          cases hi
          exact ⟨hpc, hIF, hp2, trivial, hMEM, hWB⟩
        | typeErrorWriteMem => cases hi
        | typeErrorJalPc => cases hi
        | typeErrorDisasm => cases hi
        | attrErrorJalPc => cases hi
        | attrErrorCurpkt => cases hi
        | keyErrorMemAddr => cases hi
      | none =>
        cases hi
        exact ⟨hpc, hIF, hp2, hp2, hMEM, hWB⟩

theorem stageIF_sinv (st : CPUState) (b : Bool) (h : StateInv st)
    (hjr : jrFree st.imem) : StateInv (stageIF st b) := by
  obtain ⟨⟨i, hi, hi4⟩, hIF, hID, hEX, hMEM, hWB⟩ := h
  unfold stageIF
  cases b with
  | true => exact ⟨⟨i, hi, hi4⟩, hIF, hID, hEX, hMEM, hWB⟩
  | false =>
    simp only [Bool.false_eq_true, if_false]
    have hpc' : ∃ i', (match st.slots.sID with
        | some q => if (!PcV.eqb q.npc (q.pc.addInt 4)) = true then q.npc
                    else st.pc.addInt 4
        | none => st.pc.addInt 4) = PcV.int i' ∧ (4:Int) ∣ i' := by
      cases hq : st.slots.sID with
      | none => exact ⟨i + 4, by rw [hi]; rfl, by omega⟩
      | some q =>
        rw [hq] at hID
        obtain ⟨_, ⟨k, hk, hk4⟩, _⟩ := hID
        dsimp only
        split
        · exact ⟨k, hk, hk4⟩
        · exact ⟨i + 4, by rw [hi]; rfl, by omega⟩
    cases hf : fetchIdx st.pc st.imem.length with
    | none => exact ⟨hpc', hIF, trivial, hEX, hMEM, hWB⟩
    | some idx =>
      refine ⟨hpc', hIF, ?_, hEX, hMEM, hWB⟩
      show PacketInv (Packet.fresh st.pc (decode (st.imem.getD idx 0)))
      unfold fetchIdx at hf
      rw [hi] at hf
      dsimp only at hf
      split at hf
      · rename_i hrange
        obtain ⟨hlo, hhi⟩ := hrange
        injection hf with hf
        have hnum : 0 ≤ i - 0x3000 := by
          by_contra hneg
          push_neg at hneg
          have : Int.fdiv (i - 0x3000) 4 < 0 := by
            rw [Int.fdiv_eq_ediv _ (by omega)]
            exact Int.ediv_neg' hneg (by omega)
          omega
        have hidx : idx < st.imem.length := by
          have h1 : (Int.fdiv (i - 0x3000) 4).toNat < st.imem.length := by
            omega
          rw [hf] at h1
          exact h1
        have hmem : st.imem.getD idx 0 ∈ st.imem := by
          rw [List.getD_eq_getElem st.imem 0 hidx]
          exact List.getElem_mem hidx
        refine ⟨⟨i, hi ▸ rfl, hi4, by omega⟩,
          ⟨i + 4, by rw [hi]; rfl, by omega⟩, hjr _ hmem⟩
      · cases hf

theorem stepCore_imem (st st' : CPUState) (stalled : Bool)
    (h : stepCore st = .ok (st', stalled)) : st'.imem = st.imem := by
  obtain ⟨st4, hif, _, him, _, _, _⟩ := stepCore_anatomy st st' stalled h
  subst hif
  cases stalled with
  | true => rw [stageIF_true]; exact him
  | false => rw [(stageIF_false_fields st4).2.2.2.2.2.1]; exact him

theorem stepCore_sinv (st st' : CPUState) (stalled : Bool) (h : StateInv st)
    (hjr : jrFree st.imem) (hs : stepCore st = .ok (st', stalled)) :
    StateInv st' := by
  unfold stepCore at hs
  dsimp only at hs
  have h0 : StateInv { st with cycle := st.cycle + 1, behaviors := [] } := h
  have h1 := stageWB_sinv _ h0
  cases hm : stageMEM (stageWB { st with cycle := st.cycle + 1, behaviors := [] }) with
  | error e => rw [hm] at hs; cases hs
  | ok st2 =>
    rw [hm] at hs
    dsimp only at hs
    have h2 := stageMEM_sinv _ _ h1 hm
    cases he : stageEX st2 with
    | error e => rw [he] at hs; cases hs
    | ok st3 =>
      rw [he] at hs
      dsimp only at hs
      have h3 := stageEX_sinv _ _ h2 he
      cases hi : stageID st3 with
      | error e => rw [hi] at hs; cases hs
      | ok pr =>
        obtain ⟨st4, stalled'⟩ := pr
        rw [hi] at hs
        dsimp only at hs
        cases hs
        have h4 := stageID_sinv _ _ _ h3 hi
        have him4 : st4.imem = st.imem := by
          have hw := (stageWB_spec { st with cycle := st.cycle + 1, behaviors := [] }).2.1
          have hmm := (stageMEM_spec _ _ hm).2.1
          have hee := (stageEX_spec _ _ he).2.1
          have hii := (stageID_spec _ _ _ hi).2.1
          rw [hii, hee, hmm, hw]
        exact stageIF_sinv st4 _ h4 (by rw [him4]; exact hjr)

theorem stepN_sinv (prog : List Nat) (hjr : jrFree prog) :
    ∀ (n : Nat) (st : CPUState), stepN (initState prog) n = .ok st →
      StateInv st ∧ st.imem = prog := by
  intro n
  induction n with
  | zero =>
    intro st h
    cases h
    refine ⟨⟨⟨0x3000, rfl, by norm_num⟩, trivial, trivial, trivial, trivial, trivial⟩, rfl⟩
  | succ m ih =>
    intro st h
    simp only [stepN] at h
    cases hm : stepN (initState prog) m with
    | error e => rw [hm] at h; cases h
    | ok s =>
      rw [hm] at h
      dsimp only at h
      obtain ⟨hinv, him⟩ := ih s hm
      cases hc : stepCore s with
      | error e => rw [hc] at h; cases h
      | ok pr =>
        obtain ⟨s1, stalled⟩ := pr
        rw [hc] at h
        cases h
        refine ⟨stepCore_sinv s _ _ hinv (by rw [him]; exact hjr) hc, ?_⟩
        rw [stepCore_imem s _ _ hc, him]

/-- C8 (amended): in every run of a program containing no `jr` instruction,
the pc of every reachable state is a plain (unwrapped) integer that is a
multiple of 4.  The range part of the claim is dropped: the counterexample
shows the pc walking past the claimed interval by 4 per cycle once fetch
goes out of range, and `jr` (excluded here) can load an arbitrary register
value into the pc. -/
theorem C8_pc_aligned_without_jr (prog : List Nat) (hjr : jrFree prog)
    (n : Nat) (st : CPUState) (h : stepN (initState prog) n = .ok st) :
    ∃ i, st.pc = PcV.int i ∧ (4:Int) ∣ i :=
  ((stepN_sinv prog hjr n st h).1).1

/-- The state of the sentinel-program run after two steps, used as the
concrete witness input for the jr-free alignment theorem. -/
def s2Halt : CPUState := (stepN (initState progHalt) 2).toOption.getD (initState [])

theorem C8_pc_aligned_without_jr_w :
    ∃ i, s2Halt.pc = PcV.int i ∧ (4:Int) ∣ i :=
  C8_pc_aligned_without_jr progHalt (by unfold jrFree; decide) 2 s2Halt rfl

/-- C8 (counterexample): the claim asserts that in every reachable state the
pc is word-aligned and lies in `[0x3000, 0x3000 + 4·|imem|]` or one past the
end.  Already for the empty program the pc keeps advancing by 4 every cycle
after fetch goes out of range: after two steps `pc = 0x3008`, which is
outside the claimed set for `|imem| = 0`. -/
theorem C8_pc_escapes_claimed_range :
    pcAfter [] 2 = some (.int 0x3008) ∧ ¬ pcClaimRange 0x3008 0 := by
  refine ⟨rfl, ?_⟩
  simp only [pcClaimRange]
  decide

end Pympp
